import Mathlib

/-!
Shallow embedding of the ProcureIQ knowledge-graph construction pipeline
(`src/graph/schema.py` and `src/graph/builder.py`).

Modelling conventions:
* Python floats are modelled exactly as rationals (`ℚ`); float NaN is a
  distinct `PyVal` constructor, since `_safe` tests `v == v` before
  conversion.
* Python dicts are insertion-ordered association lists (`alookup`,
  `assocUpsert`); an update keeps the original position, as CPython does.
* Display-only string attributes (label, category, risk_tier, status,
  payment_terms, transport_mode) are not carried on nodes: no declared
  numeric feature name collides with them, so they cannot influence the
  feature matrices or any other modelled behaviour.
* `float(s)` on a string is modelled by a decimal-literal parser
  (`parseDecimal`); exponent, infinity and "nan" string forms are treated
  as non-convertible.
* Python `set` iteration order is not observable in any statement below
  (only membership and counts are used), so the derived-pair sets are
  modelled as insertion-ordered duplicate-free lists.
-/

namespace KG

/-- A Python scalar value as it appears in a loaded table cell. -/
inductive PyVal where
  | num (q : ℚ)
  | nan
  | str (s : String)
  | pynone
deriving DecidableEq, Repr

/-- A table row: a mapping from column name to cell value. -/
abbrev Row := List (String × PyVal)

/-- First-match association-list lookup (Python dict access). -/
def alookup {κ α : Type} [DecidableEq κ] : List (κ × α) → κ → Option α
  | [], _ => none
  | (k, v) :: rest, k' => if k = k' then some v else alookup rest k'

/-- Insertion-ordered dict update: replace in place when the key exists
(`f` applied to the old value), append `(k, d)` otherwise. -/
def assocUpsert {κ α : Type} [DecidableEq κ] (m : List (κ × α)) (k : κ) (f : α → α) (d : α) :
    List (κ × α) :=
  match m with
  | [] => [(k, d)]
  | (k', v) :: rest => if k' = k then (k', f v) :: rest else (k', v) :: assocUpsert rest k f d

/-- Value of a digit string (helper for `parseDecimal`). -/
def digitsVal (l : List Char) : ℕ :=
  l.foldl (fun n c => 10 * n + (c.toNat - 48)) 0

/-- Python `float(s)` on a string, restricted to decimal literals:
optional sign, then digits with an optional single decimal point
(at least one digit overall).  Other strings fail to convert. -/
def parseDecimal (s : String) : Option ℚ :=
  let signed : Bool × List Char :=
    match s.data with
    | '-' :: r => (true, r)
    | '+' :: r => (false, r)
    | r => (false, r)
  let sgn : ℚ := if signed.1 then -1 else 1
  match signed.2.splitOn '.' with
  | [w] =>
      if w ≠ [] ∧ w.all Char.isDigit then some (sgn * (digitsVal w : ℚ)) else none
  | [w, f] =>
      if (w ≠ [] ∨ f ≠ []) ∧ w.all Char.isDigit ∧ f.all Char.isDigit then
        some (sgn * ((digitsVal w : ℚ) + (digitsVal f : ℚ) / (10 : ℚ) ^ f.length))
      else none
  | _ => none

/-- One key of `KnowledgeGraphBuilder._safe`: `row.get(k, 0.0)` then
`float(v) if (v is not None and v == v) else 0.0`, with a raising
conversion caught and replaced by `0.0`. -/
def safeVal (v : Option PyVal) : ℚ :=
  match v with
  | none => 0
  | some (.num q) => q
  | some .nan => 0
  | some .pynone => 0
  | some (.str s) => (parseDecimal s).getD 0

/-- `KnowledgeGraphBuilder._safe(row, keys)`. -/
def safeRow (row : Row) (keys : List String) : List (String × ℚ) :=
  keys.map (fun k => (k, safeVal (alookup row k)))

/-- Python `str(v)`; only the string case can ever hit a
`CRITICALITY_MAP` key, the other reprs are stand-ins that match no key. -/
def pyStr : PyVal → String
  | .str s => s
  | .num _ => "<number>"
  | .nan => "nan"
  | .pynone => "None"

/-- `NODE_FEATURE_SPECS` from `src/graph/schema.py`. -/
def NODE_FEATURE_SPECS : List (String × List String) :=
  [("supplier",
    ["annual_spend_usd", "on_time_delivery", "quality_score", "lead_time_days",
     "defect_rate_ppm", "financial_risk_score", "sustainability_score", "years_active",
     "is_sole_source", "is_preferred", "headcount", "revenue_usd_M"]),
   ("component",
    ["unit_cost_usd", "annual_volume", "lead_time_weeks", "inventory_days",
     "weight_kg", "is_custom", "criticality_encoded"]),
   ("country",
    ["geopolitical_risk", "avg_tariff_rate", "logistics_index",
     "currency_volatility", "labor_cost_index", "trade_agreements"]),
   ("contract",
    ["value_usd", "savings_realized_usd", "sla_penalty_usd", "negotiation_rounds",
     "duration_days", "is_active", "auto_renew", "has_rebate"]),
   ("route",
    ["transit_days", "cost_per_kg_usd", "reliability_score",
     "carbon_kg_per_ton", "is_active", "customs_delay_days"])]

/-- `CRITICALITY_MAP` from `src/graph/schema.py` (values are stored as
node features, hence modelled in `ℚ`). -/
def CRITICALITY_MAP : List (String × ℚ) :=
  [("Low", 0), ("Medium", 1), ("High", 2), ("Critical", 3)]

/-- `EDGE_TYPES` from `src/graph/schema.py`, as (src, relation, dst). -/
def EDGE_TYPES : List (String × String × String) :=
  [("supplier", "supplies", "component"),
   ("supplier", "located_in", "country"),
   ("contract", "covers", "component"),
   ("contract", "signed_with", "supplier"),
   ("route", "originates_in", "country"),
   ("route", "delivers_to", "country"),
   ("route", "carries", "component"),
   ("supplier", "co_supplier", "supplier"),
   ("country", "trades_with", "country")]

/-- Declared (source-type, destination-type) signature of a relation. -/
def edgeSig (rel : String) : Option (String × String) :=
  (EDGE_TYPES.find? (fun e => e.2.1 == rel)).map (fun e => (e.1, e.2.2))

/-- A row of `suppliers.csv` (typed key columns; remaining columns in
`attrs`). -/
structure SupplierRow where
  supplier_id : String
  country : String
  attrs : Row
deriving DecidableEq, Repr

/-- A row of `components.csv`. -/
structure ComponentRow where
  component_id : String
  attrs : Row
deriving DecidableEq, Repr

/-- A row of `countries.csv`. -/
structure CountryRow where
  country_id : String
  name : String
  attrs : Row
deriving DecidableEq, Repr

/-- A row of `contracts.csv`. -/
structure ContractRow where
  contract_id : String
  supplier_id : String
  primary_component_id : String
  attrs : Row
deriving DecidableEq, Repr

/-- A row of `routes.csv`. -/
structure RouteRow where
  route_id : String
  origin_country : String
  destination_country : String
  component_id : String
  attrs : Row
deriving DecidableEq, Repr

/-- A row of `sourcing_links.csv` (the builder reads `is_primary` with
`int(...)` and `unit_price_usd` with `float(...)`). -/
structure SourcingLinkRow where
  supplier_id : String
  component_id : String
  is_primary : ℤ
  unit_price_usd : ℚ
deriving DecidableEq, Repr

/-- The six loaded tables (`self._data`). -/
structure Tables where
  suppliers : List SupplierRow
  components : List ComponentRow
  countries : List CountryRow
  contracts : List ContractRow
  routes : List RouteRow
  sourcing_links : List SourcingLinkRow
deriving DecidableEq, Repr

/-- Attribute data of a graph node: the `node_type` discriminator and the
numeric attributes set through `_safe` (plus `criticality_encoded`). -/
structure NodeData where
  node_type : String
  feats : List (String × ℚ)
deriving DecidableEq, Repr

/-- A directed multigraph edge with its relation tag and numeric
attributes. -/
structure Edge where
  src : String
  dst : String
  relation : String
  eattrs : List (String × ℚ)
deriving DecidableEq, Repr

/-- The `networkx.MultiDiGraph`: insertion-ordered node dict plus an
insertion-ordered multiset of directed edges. -/
structure Graph where
  nodes : List (String × NodeData)
  edges : List Edge
deriving DecidableEq, Repr

/-- Python `k in self.G` (node-key membership only, never typed). -/
def Graph.hasNode (g : Graph) (k : String) : Bool :=
  (alookup g.nodes k).isSome

/-- Attribute-dict update performed by `add_node` on an existing node. -/
def mergeFeats (old new : List (String × ℚ)) : List (String × ℚ) :=
  new.foldl (fun fs p => assocUpsert fs p.1 (fun _ => p.2) p.2) old

/-- `G.add_node(k, **attrs)`: insert, or merge attributes into an
existing node (the `node_type` discriminator is overwritten). -/
def Graph.addNode (g : Graph) (k : String) (d : NodeData) : Graph :=
  { g with
    nodes := assocUpsert g.nodes k
      (fun old => ⟨d.node_type, mergeFeats old.feats d.feats⟩) d }

/-- Declared feature list of a node type
(`NODE_FEATURE_SPECS[ntype]`). -/
def featSpec (t : String) : List String :=
  (alookup NODE_FEATURE_SPECS t).getD []

/-- Node attributes built for one supplier row. -/
def supplierNode (r : SupplierRow) : NodeData :=
  ⟨"supplier", safeRow r.attrs (featSpec "supplier")⟩

/-- `CRITICALITY_MAP.get(str(row.get("criticality", "Low")), 0)`. -/
def criticalityEncoded (attrs : Row) : ℚ :=
  (alookup CRITICALITY_MAP (pyStr ((alookup attrs "criticality").getD (.str "Low")))).getD 0

/-- Node attributes built for one component row: `_safe` over the six
literal keys of `builder.py`, then the derived `criticality_encoded`. -/
def componentNode (r : ComponentRow) : NodeData :=
  ⟨"component",
    safeRow r.attrs
      ["unit_cost_usd", "annual_volume", "lead_time_weeks",
       "inventory_days", "weight_kg", "is_custom"]
    ++ [("criticality_encoded", criticalityEncoded r.attrs)]⟩

/-- Node attributes built for one country row. -/
def countryNode (r : CountryRow) : NodeData :=
  ⟨"country", safeRow r.attrs (featSpec "country")⟩

/-- Node attributes built for one contract row. -/
def contractNode (r : ContractRow) : NodeData :=
  ⟨"contract", safeRow r.attrs (featSpec "contract")⟩

/-- Node attributes built for one route row. -/
def routeNode (r : RouteRow) : NodeData :=
  ⟨"route", safeRow r.attrs (featSpec "route")⟩

/-- `for i, row in enumerate(...): id_maps.setdefault(t, \x7b\x7d)[nid] = i`:
index map from a list of natural keys, in row order, later rows
overwriting the index of a duplicate key in place. -/
def mkIdMapAux : ℕ → List String → List (String × ℕ) → List (String × ℕ)
  | _, [], m => m
  | n, k :: rest, m => mkIdMapAux (n + 1) rest (assocUpsert m k (fun _ => n) n)

/-- Index map of a key list (see `mkIdMapAux`). -/
def mkIdMap (ids : List String) : List (String × ℕ) :=
  mkIdMapAux 0 ids []

/-- Insert a list of (key, attributes) pairs with `add_node`, in order. -/
def addNodeList (g : Graph) : List (String × NodeData) → Graph
  | [] => g
  | (k, d) :: rest => addNodeList (g.addNode k d) rest

/-- `id_maps["_country_by_name"][row["name"]] = nid`, over all country
rows. -/
def mkByName : List CountryRow → List (String × String) → List (String × String)
  | [], m => m
  | r :: rest, m => mkByName rest (assocUpsert m r.name (fun _ => r.country_id) r.country_id)

/-- The country name → country id side map. -/
def countryByName (rows : List CountryRow) : List (String × String) :=
  mkByName rows []

/-- The builder's mutable state after `_nodes` / `_edges`: the graph,
the five per-type index maps, and the country-name side map. -/
structure BuilderState where
  g : Graph
  supplier_map : List (String × ℕ)
  component_map : List (String × ℕ)
  country_map : List (String × ℕ)
  contract_map : List (String × ℕ)
  route_map : List (String × ℕ)
  country_by_name : List (String × String)
deriving DecidableEq, Repr

/-- All (key, attributes) node insertions of `_nodes`, in processing
order (suppliers, components, countries, contracts, routes). -/
def nodeEntries (tb : Tables) : List (String × NodeData) :=
  tb.suppliers.map (fun r => (r.supplier_id, supplierNode r))
  ++ tb.components.map (fun r => (r.component_id, componentNode r))
  ++ tb.countries.map (fun r => (r.country_id, countryNode r))
  ++ tb.contracts.map (fun r => (r.contract_id, contractNode r))
  ++ tb.routes.map (fun r => (r.route_id, routeNode r))

/-- `KnowledgeGraphBuilder._nodes`.  The Python loop interleaves the
index-map write and the `add_node` call per row; the two touch disjoint
state, so they are modelled as independent passes in the same row
order. -/
def buildNodes (tb : Tables) : BuilderState :=
  { g := addNodeList ⟨[], []⟩ (nodeEntries tb)
    supplier_map := mkIdMap (tb.suppliers.map (·.supplier_id))
    component_map := mkIdMap (tb.components.map (·.component_id))
    country_map := mkIdMap (tb.countries.map (·.country_id))
    contract_map := mkIdMap (tb.contracts.map (·.contract_id))
    route_map := mkIdMap (tb.routes.map (·.route_id))
    country_by_name := countryByName tb.countries }

/-- Python truthiness of `by_name.get(...)`: `None` and the empty string
are falsy. -/
def pyTruthy : Option String → Bool
  | none => false
  | some s => !s.isEmpty

/-- `supplies` edges: one per sourcing-link row whose two endpoints are
node keys of the graph. -/
def suppliesEdges (g : Graph) (links : List SourcingLinkRow) : List Edge :=
  links.filterMap (fun l =>
    if g.hasNode l.supplier_id && g.hasNode l.component_id then
      some ⟨l.supplier_id, l.component_id, "supplies",
            [("is_primary", (l.is_primary : ℚ)), ("unit_price_usd", l.unit_price_usd)]⟩
    else none)

/-- `located_in` edges: one per supplier row whose id is a node and whose
country name resolves (truthily) to a country id that is a node. -/
def locatedInEdges (g : Graph) (byName : List (String × String)) (rows : List SupplierRow) :
    List Edge :=
  rows.filterMap (fun r =>
    let cnid := alookup byName r.country
    if g.hasNode r.supplier_id && pyTruthy cnid && g.hasNode (cnid.getD "") then
      some ⟨r.supplier_id, cnid.getD "", "located_in", []⟩
    else none)

/-- `covers` and `signed_with` edges: up to two per contract row, each
gated independently. -/
def contractEdges (g : Graph) (rows : List ContractRow) : List Edge :=
  rows.flatMap (fun r =>
    (if g.hasNode r.contract_id && g.hasNode r.primary_component_id then
      [⟨r.contract_id, r.primary_component_id, "covers", []⟩]
    else [])
    ++
    (if g.hasNode r.contract_id && g.hasNode r.supplier_id then
      [⟨r.contract_id, r.supplier_id, "signed_with", []⟩]
    else []))

/-- `originates_in` / `delivers_to` / `carries` edges: up to three per
route row, each gated independently under the route-node gate. -/
def routeEdges (g : Graph) (byName : List (String × String)) (rows : List RouteRow) :
    List Edge :=
  rows.flatMap (fun r =>
    if g.hasNode r.route_id then
      let ocid := alookup byName r.origin_country
      let dcid := alookup byName r.destination_country
      (if pyTruthy ocid && g.hasNode (ocid.getD "") then
        [⟨r.route_id, ocid.getD "", "originates_in", []⟩]
      else [])
      ++
      (if pyTruthy dcid && g.hasNode (dcid.getD "") then
        [⟨r.route_id, dcid.getD "", "delivers_to", []⟩]
      else [])
      ++
      (if g.hasNode r.component_id then
        [⟨r.route_id, r.component_id, "carries", []⟩]
      else [])
    else [])

/-- `comp_to_sups`: component id → list of supplier ids, appending in
row order. -/
def compToSupsAux : List SourcingLinkRow → List (String × List String) → List (String × List String)
  | [], m => m
  | l :: rest, m =>
      compToSupsAux rest (assocUpsert m l.component_id (fun s => s ++ [l.supplier_id]) [l.supplier_id])

/-- The `comp_to_sups` mapping of `_edges`. -/
def compToSups (links : List SourcingLinkRow) : List (String × List String) :=
  compToSupsAux links []

/-- All index pairs `i < j` of a supplier list, as value pairs
(`for i ... for j in range(i+1, ...)`). -/
def listPairs : List String → List (String × String)
  | [] => []
  | x :: xs => xs.map (fun y => (x, y)) ++ listPairs xs

/-- Code-point lexicographic comparison of character lists: exactly the
string comparison Python's `sorted` uses. -/
def charListLe : List Char → List Char → Bool
  | [], _ => true
  | _ :: _, [] => false
  | a :: as, b :: bs =>
      if a.toNat = b.toNat then charListLe as bs
      else decide (a.toNat < b.toNat)

/-- Python string comparison `a <= b`. -/
def strLe (a b : String) : Bool :=
  charListLe a.data b.data

/-- `tuple(sorted([a, b]))`. -/
def sortPair (p : String × String) : String × String :=
  if strLe p.1 p.2 then p else (p.2, p.1)

/-- Python `set.add`, on a set modelled as a duplicate-free list. -/
def dedupInsert {α : Type} [DecidableEq α] (l : List α) (x : α) : List α :=
  if x ∈ l then l else l ++ [x]

/-- Add all sorted supplier pairs of one component to the `co` set. -/
def addSortedPairs (co : List (String × String)) (sups : List String) : List (String × String) :=
  (listPairs sups).foldl (fun acc p => dedupInsert acc (sortPair p)) co

/-- The `co` set of `_edges`: sorted co-supplier pairs over all
components. -/
def coPairs (links : List SourcingLinkRow) : List (String × String) :=
  (compToSups links).foldl (fun acc e => addSortedPairs acc e.2) []

/-- `co_supplier` edges: both directions for every pair of the `co` set
whose two members are node keys. -/
def coSupplierEdges (g : Graph) (links : List SourcingLinkRow) : List Edge :=
  (coPairs links).flatMap (fun p =>
    if g.hasNode p.1 && g.hasNode p.2 then
      [⟨p.1, p.2, "co_supplier", []⟩, ⟨p.2, p.1, "co_supplier", []⟩]
    else [])

/-- The `tw` set of `_edges`: resolved (origin id, destination id) pairs
over all routes, both components truthy. -/
def twPairsAux (byName : List (String × String)) :
    List RouteRow → List (String × String) → List (String × String)
  | [], tw => tw
  | r :: rest, tw =>
      let oc := alookup byName r.origin_country
      let dc := alookup byName r.destination_country
      twPairsAux byName rest
        (if pyTruthy oc && pyTruthy dc then dedupInsert tw (oc.getD "", dc.getD "") else tw)

/-- The `tw` set of `_edges`. -/
def twPairs (byName : List (String × String)) (routes : List RouteRow) :
    List (String × String) :=
  twPairsAux byName routes []

/-- `trades_with` edges: one directed edge per element of the `tw` set
whose two members are node keys. -/
def tradesWithEdges (g : Graph) (byName : List (String × String)) (routes : List RouteRow) :
    List Edge :=
  (twPairs byName routes).filterMap (fun p =>
    if g.hasNode p.1 && g.hasNode p.2 then
      some ⟨p.1, p.2, "trades_with", []⟩
    else none)

/-- All edges appended by `_edges`, in phase order.  Membership tests in
the Python loops see the live graph, but `_edges` never adds or removes
nodes, so testing against the post-`_nodes` graph is equivalent. -/
def allEdges (g : Graph) (tb : Tables) (byName : List (String × String)) : List Edge :=
  suppliesEdges g tb.sourcing_links
  ++ locatedInEdges g byName tb.suppliers
  ++ contractEdges g tb.contracts
  ++ routeEdges g byName tb.routes
  ++ coSupplierEdges g tb.sourcing_links
  ++ tradesWithEdges g byName tb.routes

/-- `KnowledgeGraphBuilder._edges`. -/
def addEdgesPhase (st : BuilderState) (tb : Tables) : BuilderState :=
  { st with g := { st.g with edges := st.g.edges ++ allEdges st.g tb st.country_by_name } }

/-- `_load` → `_nodes` → `_edges` on already-loaded tables. -/
def buildGraph (tb : Tables) : BuilderState :=
  addEdgesPhase (buildNodes tb) tb

/-- The nodes of one type, in graph insertion order. -/
def nodesOfType (g : Graph) (t : String) : List (String × NodeData) :=
  g.nodes.filter (fun p => p.2.node_type == t)

/-- `float(d.get(f, 0.0) or 0.0)` for a numeric attribute dict: the `or`
maps a stored 0.0 to 0.0, so on rationals it is lookup-with-default. -/
def featValue (d : NodeData) (f : String) : ℚ :=
  (alookup d.feats f).getD 0

/-- The raw (unnormalized) feature matrix of one node type. -/
def rawMatrix (g : Graph) (t : String) (names : List String) : List (List ℚ) :=
  (nodesOfType g t).map (fun p => names.map (featValue p.2))

/-- Minimum of a rational list (`matrix.min(0)` is applied per column on
a nonempty matrix; the `[]` case is never reached there). -/
def listMin : List ℚ → ℚ
  | [] => 0
  | x :: xs => xs.foldl min x

/-- Maximum of a rational list. -/
def listMax : List ℚ → ℚ
  | [] => 0
  | x :: xs => xs.foldl max x

/-- Column `j` of a row-major matrix. -/
def column (m : List (List ℚ)) (j : ℕ) : List ℚ :=
  m.map (fun r => r.getD j 0)

/-- One normalized entry: `(v - min) / rng` with
`rng = 1 if max - min == 0 else max - min` (`np.where`). -/
def normEntry (m : List (List ℚ)) (j : ℕ) (v : ℚ) : ℚ :=
  let mn := listMin (column m j)
  let mx := listMax (column m j)
  (v - mn) / (if mx - mn = 0 then 1 else mx - mn)

/-- One normalized row. -/
def normRow (m : List (List ℚ)) (row : List ℚ) : List ℚ :=
  (List.range row.length).map (fun j => normEntry m j (row.getD j 0))

/-- `(matrix - mins) / rng`, columnwise min-max scaling. -/
def normalizeMatrix (m : List (List ℚ)) : List (List ℚ) :=
  m.map (normRow m)

/-- `KnowledgeGraphBuilder._features`: for every declared node type with
at least one node, the normalized feature matrix. -/
def buildFeatures (g : Graph) : List (String × List (List ℚ)) :=
  NODE_FEATURE_SPECS.filterMap (fun e =>
    if (nodesOfType g e.1).isEmpty then none
    else some (e.1, normalizeMatrix (rawMatrix g e.1 e.2)))

/-- The `edge_defs` list of `_to_pyg`, as (relation, src type, dst
type). -/
def edge_defs : List (String × String × String) :=
  [("supplies", "supplier", "component"),
   ("located_in", "supplier", "country"),
   ("covers", "contract", "component"),
   ("signed_with", "contract", "supplier"),
   ("originates_in", "route", "country"),
   ("delivers_to", "route", "country"),
   ("carries", "route", "component"),
   ("co_supplier", "supplier", "supplier"),
   ("trades_with", "country", "country")]

/-- `self.id_maps.get(t, \x7b\x7d)` for the five public per-type maps. -/
def idMapFor (st : BuilderState) (t : String) : List (String × ℕ) :=
  if t = "supplier" then st.supplier_map
  else if t = "component" then st.component_map
  else if t = "country" then st.country_map
  else if t = "contract" then st.contract_map
  else if t = "route" then st.route_map
  else []

/-- The `HeteroData` tensor bundle: per-type feature matrices and
per-(src type, relation, dst type) edge-index pair lists. -/
structure HeteroData where
  x : List (String × List (List ℚ))
  edge_index : List ((String × String × String) × List (ℕ × ℕ))
deriving DecidableEq, Repr

/-- The resolved edge-index list of one relation in `_to_pyg`: one
`(sm[u], dm[v])` pair per edge whose guard
`d.get("relation") == rel and u in sm and v in dm` holds. -/
def resolvedPairs (st : BuilderState) (rel srcT dstT : String) : List (ℕ × ℕ) :=
  st.g.edges.filterMap (fun ed =>
    if ed.relation == rel && (alookup (idMapFor st srcT) ed.src).isSome &&
        (alookup (idMapFor st dstT) ed.dst).isSome then
      some ((alookup (idMapFor st srcT) ed.src).getD 0,
        (alookup (idMapFor st dstT) ed.dst).getD 0)
    else none)

/-- `KnowledgeGraphBuilder._to_pyg` (with the tensor-graph library
available): copy the feature matrices, then one edge-index entry per
relation of `edge_defs` that resolved at least one edge. -/
def toPyg (st : BuilderState) (features : List (String × List (List ℚ))) : HeteroData :=
  { x := features
    edge_index := edge_defs.filterMap (fun e =>
      let es := resolvedPairs st e.1 e.2.1 e.2.2
      if es.isEmpty then none else some ((e.2.1, e.1, e.2.2), es)) }

/-- The full in-memory pipeline after `build()`: graph state, feature
matrices, tensor bundle. -/
def buildAll (tb : Tables) : BuilderState × List (String × List (List ℚ)) × HeteroData :=
  let st := buildGraph tb
  let fs := buildFeatures st.g
  (st, fs, toPyg st fs)

/-- The six required table names, in load order. -/
def REQUIRED_TABLES : List String :=
  ["suppliers", "components", "countries", "contracts", "routes", "sourcing_links"]

/-- The fatal missing-input failure of `_load` (spec taxonomy name
`MissingInputError`): it records the missing path and the generation
command. -/
structure MissingInputError where
  path : String
  command : String
deriving DecidableEq, Repr

/-- The exception text raised by `_load`. -/
def MissingInputError.message (e : MissingInputError) : String :=
  "Missing " ++ e.path ++ ". Run: " ++ e.command

/-- `self.data_dir / f"\x7bt\x7d.csv"`. -/
def csvPath (dataDir t : String) : String :=
  dataDir ++ "/" ++ t ++ ".csv"

/-- `KnowledgeGraphBuilder._load` over a directory modelled as a map from
file path to raw table contents: load the named tables in order, failing
on the first absent file. -/
def loadNamed {τ : Type} (dataDir : String) (dir : List (String × τ)) :
    List String → Except MissingInputError (List (String × τ))
  | [] => .ok []
  | t :: rest =>
    match alookup dir (csvPath dataDir t) with
    | none => .error ⟨csvPath dataDir t, "python -m src.data.generator"⟩
    | some tab =>
      match loadNamed dataDir dir rest with
      | .error e => .error e
      | .ok l => .ok ((t, tab) :: l)

/-- `_load` over the six required tables. -/
def loadTables {τ : Type} (dataDir : String) (dir : List (String × τ)) :
    Except MissingInputError (List (String × τ)) :=
  loadNamed dataDir dir REQUIRED_TABLES

/-- The predicate selecting edges from `s` to `d` tagged `rel`. -/
def relPred (rel s d : String) : Edge → Bool :=
  fun e => e.relation == rel && e.src == s && e.dst == d

/-- Number of edges from `s` to `d` tagged with relation `rel`. -/
def countRel (g : Graph) (rel s d : String) : ℕ :=
  g.edges.countP (relPred rel s d)

/-- The node type stored at a key, when the key is a node. -/
def typeOf (g : Graph) (k : String) : Option String :=
  (alookup g.nodes k).map (·.node_type)

/-- Reference discipline on one key: if the key is a node at all, its
node type is `t`.  The builder itself never checks this. -/
def typedRef (g : Graph) (k t : String) : Bool :=
  match alookup g.nodes k with
  | some d => d.node_type == t
  | none => true

/-- The natural keys of all five entity tables, in node processing
order. -/
def allIds (tb : Tables) : List String :=
  tb.suppliers.map (·.supplier_id)
  ++ tb.components.map (·.component_id)
  ++ tb.countries.map (·.country_id)
  ++ tb.contracts.map (·.contract_id)
  ++ tb.routes.map (·.route_id)

/-- A small well-formed input (the end-to-end scenario of spec §8):
3 suppliers, 2 components, 2 countries, 1 contract, 1 route, 4 sourcing
links with 2 suppliers sharing a component. -/
def demoTables : Tables :=
  { suppliers := [⟨"SUP-1", "Narnia", [("annual_spend_usd", .num 10)]⟩,
                  ⟨"SUP-2", "Narnia", []⟩,
                  ⟨"SUP-3", "Oz", []⟩]
    components := [⟨"CMP-1", [("criticality", .str "High"), ("unit_cost_usd", .num 5)]⟩,
                   ⟨"CMP-2", []⟩]
    countries := [⟨"CTY-1", "Narnia", []⟩, ⟨"CTY-2", "Oz", []⟩]
    contracts := [⟨"CON-1", "SUP-1", "CMP-1", []⟩]
    routes := [⟨"RTE-1", "Narnia", "Oz", "CMP-2", []⟩]
    sourcing_links := [⟨"SUP-1", "CMP-1", 1, 3⟩, ⟨"SUP-2", "CMP-1", 0, 4⟩,
                       ⟨"SUP-1", "CMP-2", 1, 2⟩, ⟨"SUP-3", "CMP-2", 0, 1⟩] }

/-- Input with a duplicated (supplier, component) sourcing-link row:
the co-supplier derivation sees supplier SUP-1 twice under CMP-1. -/
def selfLoopTables : Tables :=
  { suppliers := [⟨"SUP-1", "X", []⟩]
    components := [⟨"CMP-1", []⟩]
    countries := []
    contracts := []
    routes := []
    sourcing_links := [⟨"SUP-1", "CMP-1", 1, 0⟩, ⟨"SUP-1", "CMP-1", 0, 0⟩] }

/-- Input whose sourcing link references two existing country nodes:
both referenced keys exist in the graph, so a `supplies` edge between
two country nodes is materialized. -/
def misTypedTables : Tables :=
  { suppliers := []
    components := []
    countries := [⟨"CTY-1", "A", []⟩, ⟨"CTY-2", "B", []⟩]
    contracts := []
    routes := []
    sourcing_links := [⟨"CTY-1", "CTY-2", 1, 0⟩] }

/-- Input in which the key "K" is both a supplier id and a component id:
the second `add_node` overwrites the node's type, so the supplier index
map has two entries while only one supplier node remains. -/
def collidingTables : Tables :=
  { suppliers := [⟨"SUP-A", "X", []⟩, ⟨"K", "N", []⟩]
    components := [⟨"K", []⟩]
    countries := [⟨"CTY-1", "N", []⟩]
    contracts := []
    routes := []
    sourcing_links := [] }

/-- Input directory contents for the loader witness: all six required
files present (table payloads stand in as numbers). -/
def demoDir : List (String × ℕ) :=
  [("data/suppliers.csv", 0), ("data/components.csv", 1), ("data/countries.csv", 2),
   ("data/contracts.csv", 3), ("data/routes.csv", 4), ("data/sourcing_links.csv", 5)]

/-- Directory contents with `routes.csv` absent. -/
def partialDir : List (String × ℕ) :=
  [("data/suppliers.csv", 0), ("data/components.csv", 1), ("data/countries.csv", 2),
   ("data/contracts.csv", 3), ("data/sourcing_links.csv", 5)]

/-- A row exercising every tolerant-coercion case of `_safe`. -/
def coercionRow : Row :=
  [("a", .num 3), ("b", .nan), ("c", .str "oops"), ("d", .str "2.5"), ("e", .pynone)]

/-- Keys requested from `coercionRow`, including an absent one. -/
def coercionKeys : List String :=
  ["a", "b", "c", "d", "missing"]

/-- One concrete edge of the demo build (first sourcing link). -/
def demoEdge : Edge :=
  ⟨"SUP-1", "CMP-1", "supplies", [("is_primary", 1), ("unit_price_usd", 3)]⟩

section Lemmas

variable {κ α β : Type} [DecidableEq κ]

theorem alookup_append_of_none {m₁ m₂ : List (κ × α)} {k : κ}
    (h : alookup m₁ k = none) : alookup (m₁ ++ m₂) k = alookup m₂ k := by
  induction m₁ with
  | nil => rfl
  | cons p rest ih =>
      by_cases hk : p.1 = k
      · simp [alookup, hk] at h
      · simpa [alookup, hk] using ih (by simpa [alookup, hk] using h)

theorem alookup_append_of_some {m₁ m₂ : List (κ × α)} {k : κ} {v : α}
    (h : alookup m₁ k = some v) : alookup (m₁ ++ m₂) k = some v := by
  induction m₁ with
  | nil => simp [alookup] at h
  | cons p rest ih =>
      by_cases hk : p.1 = k
      · simpa [alookup, hk] using by simpa [alookup, hk] using h
      · simpa [alookup, hk] using ih (by simpa [alookup, hk] using h)

theorem alookup_eq_none_of_not_mem_keys {m : List (κ × α)} {k : κ}
    (h : k ∉ m.map Prod.fst) : alookup m k = none := by
  induction m with
  | nil => rfl
  | cons p rest ih =>
      simp only [List.map_cons, List.mem_cons] at h
      push_neg at h
      have hne : ¬ p.1 = k := fun he => h.1 (Eq.symm he)
      simp [alookup, hne, ih h.2]

theorem mem_of_alookup {m : List (κ × α)} {k : κ} {v : α}
    (h : alookup m k = some v) : (k, v) ∈ m := by
  induction m with
  | nil => simp [alookup] at h
  | cons p rest ih =>
      obtain ⟨k', v'⟩ := p
      by_cases hk : k' = k
      · simp only [alookup, if_pos hk] at h
        subst hk
        rw [Option.some.injEq] at h
        subst h
        exact List.mem_cons_self _ _
      · exact List.mem_cons_of_mem _ (ih (by simpa [alookup, hk] using h))

theorem assocUpsert_of_absent {m : List (κ × α)} {k : κ} {f : α → α} {d : α}
    (h : alookup m k = none) : assocUpsert m k f d = m ++ [(k, d)] := by
  induction m with
  | nil => rfl
  | cons p rest ih =>
      by_cases hk : p.1 = k
      · simp [alookup, hk] at h
      · simp [assocUpsert, hk, ih (by simpa [alookup, hk] using h)]

theorem alookup_assocUpsert_self (m : List (κ × α)) (k : κ) (f : α → α) (d : α) :
    alookup (assocUpsert m k f d) k =
      some (match alookup m k with | some v => f v | none => d) := by
  induction m with
  | nil => simp [assocUpsert, alookup]
  | cons p rest ih =>
      by_cases hk : p.1 = k
      · simp [assocUpsert, alookup, hk]
      · simp [assocUpsert, alookup, hk, ih]

theorem alookup_assocUpsert_ne (m : List (κ × α)) {k k' : κ} (f : α → α) (d : α)
    (h : k ≠ k') : alookup (assocUpsert m k f d) k' = alookup m k' := by
  induction m with
  | nil => simp [assocUpsert, alookup, h]
  | cons p rest ih =>
      by_cases hk : p.1 = k
      · simp [assocUpsert, alookup, hk, h, hk ▸ h]
      · simp [assocUpsert, alookup, hk, ih]

theorem addNode_edges (g : Graph) (k : String) (d : NodeData) :
    (g.addNode k d).edges = g.edges := rfl

theorem addNode_nodes_absent {g : Graph} {k : String} (d : NodeData)
    (h : alookup g.nodes k = none) :
    (g.addNode k d).nodes = g.nodes ++ [(k, d)] := by
  simp [Graph.addNode, assocUpsert_of_absent h]

theorem addNodeList_edges (l : List (String × NodeData)) (g : Graph) :
    (addNodeList g l).edges = g.edges := by
  induction l generalizing g with
  | nil => rfl
  | cons p rest ih => cases p; simpa [addNodeList] using ih _

theorem addNodeList_nodes_fresh (l : List (String × NodeData)) (g : Graph)
    (h1 : ∀ p ∈ l, alookup g.nodes p.1 = none)
    (h2 : (l.map Prod.fst).Nodup) :
    (addNodeList g l).nodes = g.nodes ++ l := by
  induction l generalizing g with
  | nil => simp [addNodeList]
  | cons p rest ih =>
      obtain ⟨k, d⟩ := p
      simp only [List.map_cons, List.nodup_cons] at h2
      have hfresh : alookup g.nodes k = none := h1 (k, d) (List.mem_cons_self _ _)
      have hstep : (g.addNode k d).nodes = g.nodes ++ [(k, d)] :=
        addNode_nodes_absent d hfresh
      have hrest : ∀ q ∈ rest, alookup ((g.addNode k d).nodes) q.1 = none := by
        intro q hq
        rw [hstep]
        have hq1 : alookup g.nodes q.1 = none := h1 q (List.mem_cons_of_mem _ hq)
        have hqk : ¬ k = q.1 := by
          intro he
          exact h2.1 (he ▸ List.mem_map_of_mem Prod.fst hq)
        rw [alookup_append_of_none hq1]
        simp [alookup, hqk]
      have := ih (g.addNode k d) hrest h2.2
      simp [addNodeList, this, hstep]

theorem mkIdMapAux_fresh (ids : List String) (n : ℕ) (m : List (String × ℕ))
    (h1 : ∀ s ∈ ids, alookup m s = none) (h2 : ids.Nodup) :
    mkIdMapAux n ids m = m ++ ids.zip (List.range' n ids.length) := by
  induction ids generalizing n m with
  | nil => simp [mkIdMapAux]
  | cons k rest ih =>
      simp only [List.nodup_cons] at h2
      have hstep : assocUpsert m k (fun _ => n) n = m ++ [(k, n)] :=
        assocUpsert_of_absent (h1 k (List.mem_cons_self _ _))
      have hrest : ∀ s ∈ rest, alookup (m ++ [(k, n)]) s = none := by
        intro s hs
        rw [alookup_append_of_none (h1 s (List.mem_cons_of_mem _ hs))]
        have hks : ¬ k = s := fun he => h2.1 (he ▸ hs)
        simp [alookup, hks]
      have := ih (n + 1) (m ++ [(k, n)]) hrest h2.2
      simp [mkIdMapAux, hstep, this, List.range'_succ, List.zip_cons_cons]

theorem mkIdMap_of_nodup {ids : List String} (h : ids.Nodup) :
    mkIdMap ids = ids.zip (List.range ids.length) := by
  have := mkIdMapAux_fresh ids 0 [] (fun s _ => rfl) h
  simpa [mkIdMap, List.range_eq_range'] using this

theorem nodeEntries_keys (tb : Tables) :
    (nodeEntries tb).map Prod.fst = allIds tb := by
  simp [nodeEntries, allIds, Function.comp_def]

theorem addEdgesPhase_nodes (st : BuilderState) (tb : Tables) :
    (addEdgesPhase st tb).g.nodes = st.g.nodes := rfl

theorem buildNodes_nodes_of_nodup {tb : Tables} (h : (allIds tb).Nodup) :
    (buildNodes tb).g.nodes = nodeEntries tb := by
  have h2 : ((nodeEntries tb).map Prod.fst).Nodup := by
    rw [nodeEntries_keys]; exact h
  simpa [buildNodes] using
    addNodeList_nodes_fresh (nodeEntries tb) ⟨[], []⟩ (fun p _ => rfl) h2

theorem buildGraph_nodes_of_nodup {tb : Tables} (h : (allIds tb).Nodup) :
    (buildGraph tb).g.nodes = nodeEntries tb := by
  rw [buildGraph, addEdgesPhase_nodes]
  exact buildNodes_nodes_of_nodup h

theorem buildGraph_supplier_map (tb : Tables) :
    (buildGraph tb).supplier_map = mkIdMap (tb.suppliers.map (·.supplier_id)) := rfl

theorem buildGraph_component_map (tb : Tables) :
    (buildGraph tb).component_map = mkIdMap (tb.components.map (·.component_id)) := rfl

theorem buildGraph_country_map (tb : Tables) :
    (buildGraph tb).country_map = mkIdMap (tb.countries.map (·.country_id)) := rfl

theorem buildGraph_contract_map (tb : Tables) :
    (buildGraph tb).contract_map = mkIdMap (tb.contracts.map (·.contract_id)) := rfl

theorem buildGraph_route_map (tb : Tables) :
    (buildGraph tb).route_map = mkIdMap (tb.routes.map (·.route_id)) := rfl

end Lemmas

/-- C1: after `build()` on tables whose natural keys are unique within
each node type and not shared across types, the graph has exactly the
sum of the five entity-table row counts as nodes, and each per-type
index map assigns, in input row order, exactly the indices
`0, 1, ..., count - 1` (dense, no duplicates): the map equals the key
list zipped with `List.range count`. -/
theorem claim_C1 (tb : Tables) (h : (allIds tb).Nodup) :
    (buildGraph tb).g.nodes.length =
      tb.suppliers.length + tb.components.length + tb.countries.length +
        tb.contracts.length + tb.routes.length
    ∧ (buildGraph tb).supplier_map =
        (tb.suppliers.map (·.supplier_id)).zip (List.range tb.suppliers.length)
    ∧ (buildGraph tb).component_map =
        (tb.components.map (·.component_id)).zip (List.range tb.components.length)
    ∧ (buildGraph tb).country_map =
        (tb.countries.map (·.country_id)).zip (List.range tb.countries.length)
    ∧ (buildGraph tb).contract_map =
        (tb.contracts.map (·.contract_id)).zip (List.range tb.contracts.length)
    ∧ (buildGraph tb).route_map =
        (tb.routes.map (·.route_id)).zip (List.range tb.routes.length) := by
  have hr : (tb.routes.map (·.route_id)).Nodup := h.of_append_right
  have h4 := h.of_append_left
  have hct : (tb.contracts.map (·.contract_id)).Nodup := h4.of_append_right
  have h3 := h4.of_append_left
  have hcn : (tb.countries.map (·.country_id)).Nodup := h3.of_append_right
  have h2 := h3.of_append_left
  have hc : (tb.components.map (·.component_id)).Nodup := h2.of_append_right
  have hs : (tb.suppliers.map (·.supplier_id)).Nodup := h2.of_append_left
  refine ⟨?_, ?_, ?_, ?_, ?_, ?_⟩
  · rw [buildGraph_nodes_of_nodup h]
    simp [nodeEntries]
    omega
  · rw [buildGraph_supplier_map, mkIdMap_of_nodup hs, List.length_map]
  · rw [buildGraph_component_map, mkIdMap_of_nodup hc, List.length_map]
  · rw [buildGraph_country_map, mkIdMap_of_nodup hcn, List.length_map]
  · rw [buildGraph_contract_map, mkIdMap_of_nodup hct, List.length_map]
  · rw [buildGraph_route_map, mkIdMap_of_nodup hr, List.length_map]

/-- C1 witness: the claim instantiated on the concrete demo tables. -/
theorem claim_C1_witness :
    (allIds demoTables).Nodup ∧
      ((buildGraph demoTables).g.nodes.length =
        demoTables.suppliers.length + demoTables.components.length +
          demoTables.countries.length + demoTables.contracts.length +
          demoTables.routes.length
      ∧ (buildGraph demoTables).supplier_map =
          (demoTables.suppliers.map (·.supplier_id)).zip
            (List.range demoTables.suppliers.length)
      ∧ (buildGraph demoTables).component_map =
          (demoTables.components.map (·.component_id)).zip
            (List.range demoTables.components.length)
      ∧ (buildGraph demoTables).country_map =
          (demoTables.countries.map (·.country_id)).zip
            (List.range demoTables.countries.length)
      ∧ (buildGraph demoTables).contract_map =
          (demoTables.contracts.map (·.contract_id)).zip
            (List.range demoTables.contracts.length)
      ∧ (buildGraph demoTables).route_map =
          (demoTables.routes.map (·.route_id)).zip
            (List.range demoTables.routes.length)) :=
  ⟨by decide, claim_C1 demoTables (by decide)⟩

section MinMax

theorem foldl_min_le_init (xs : List ℚ) (x : ℚ) : xs.foldl min x ≤ x := by
  induction xs generalizing x with
  | nil => exact le_refl x
  | cons y ys ih =>
      simp only [List.foldl_cons]
      exact le_trans (ih (min x y)) (min_le_left x y)

theorem foldl_min_le_of_mem {a : ℚ} {xs : List ℚ} (h : a ∈ xs) (x : ℚ) :
    xs.foldl min x ≤ a := by
  induction xs generalizing x with
  | nil => cases h
  | cons y ys ih =>
      simp only [List.foldl_cons]
      rcases List.mem_cons.mp h with he | hm
      · subst he
        exact le_trans (foldl_min_le_init ys (min x a)) (min_le_right x a)
      · exact ih hm (min x y)

theorem listMin_le {l : List ℚ} {a : ℚ} (h : a ∈ l) : listMin l ≤ a := by
  cases l with
  | nil => cases h
  | cons x xs =>
      rcases List.mem_cons.mp h with he | hm
      · subst he
        exact foldl_min_le_init xs a
      · exact foldl_min_le_of_mem hm x

theorem le_foldl_max_init (xs : List ℚ) (x : ℚ) : x ≤ xs.foldl max x := by
  induction xs generalizing x with
  | nil => exact le_refl x
  | cons y ys ih =>
      simp only [List.foldl_cons]
      exact le_trans (le_max_left x y) (ih (max x y))

theorem le_foldl_max_of_mem {a : ℚ} {xs : List ℚ} (h : a ∈ xs) (x : ℚ) :
    a ≤ xs.foldl max x := by
  induction xs generalizing x with
  | nil => cases h
  | cons y ys ih =>
      simp only [List.foldl_cons]
      rcases List.mem_cons.mp h with he | hm
      · subst he
        exact le_trans (le_max_right x a) (le_foldl_max_init ys (max x a))
      · exact ih hm (max x y)

theorem le_listMax {l : List ℚ} {a : ℚ} (h : a ∈ l) : a ≤ listMax l := by
  cases l with
  | nil => cases h
  | cons x xs =>
      rcases List.mem_cons.mp h with he | hm
      · subst he
        exact le_foldl_max_init xs a
      · exact le_foldl_max_of_mem hm x

theorem foldl_min_mem (xs : List ℚ) (x : ℚ) : xs.foldl min x ∈ x :: xs := by
  induction xs generalizing x with
  | nil => simp
  | cons y ys ih =>
      simp only [List.foldl_cons]
      rcases List.mem_cons.mp (ih (min x y)) with he | hm
      · rcases min_choice x y with hx | hy
        · rw [he, hx]; exact List.mem_cons_self _ _
        · rw [he, hy]; exact List.mem_cons_of_mem _ (List.mem_cons_self _ _)
      · exact List.mem_cons_of_mem _ (List.mem_cons_of_mem _ hm)

theorem listMin_mem {l : List ℚ} (h : l ≠ []) : listMin l ∈ l := by
  cases l with
  | nil => exact absurd rfl h
  | cons x xs => exact foldl_min_mem xs x

end MinMax

section Normalize

theorem length_normRow (m : List (List ℚ)) (row : List ℚ) :
    (normRow m row).length = row.length := by
  simp [normRow]

theorem length_normalizeMatrix (m : List (List ℚ)) :
    (normalizeMatrix m).length = m.length := by
  simp [normalizeMatrix]

theorem normRow_getD (m : List (List ℚ)) (row : List ℚ) {j : ℕ} (hj : j < row.length) :
    (normRow m row).getD j 0 = normEntry m j (row.getD j 0) := by
  rw [normRow, List.getD_eq_getElem?_getD, List.getElem?_map, List.getElem?_range hj]
  rfl

theorem mem_normRow {m : List (List ℚ)} {row : List ℚ} {v : ℚ} (h : v ∈ normRow m row) :
    ∃ j, j < row.length ∧ v = normEntry m j (row.getD j 0) := by
  rw [normRow] at h
  rcases List.mem_map.mp h with ⟨j, hj, he⟩
  exact ⟨j, List.mem_range.mp hj, he.symm⟩

theorem normEntry_bounds {m : List (List ℚ)} {x : ℚ} {j : ℕ} (hx : x ∈ column m j) :
    0 ≤ normEntry m j x ∧ normEntry m j x ≤ 1 := by
  have h1 : listMin (column m j) ≤ x := listMin_le hx
  have h2 : x ≤ listMax (column m j) := le_listMax hx
  rw [normEntry]
  by_cases hz : listMax (column m j) - listMin (column m j) = 0
  · rw [if_pos hz, div_one]
    constructor
    · exact sub_nonneg.mpr h1
    · have hxle : x ≤ listMin (column m j) := by
        have := sub_eq_zero.mp hz
        linarith
      linarith
  · rw [if_neg hz]
    have hpos : 0 < listMax (column m j) - listMin (column m j) :=
      lt_of_le_of_ne (by linarith) (Ne.symm hz)
    constructor
    · exact div_nonneg (by linarith) (le_of_lt hpos)
    · rw [div_le_one hpos]
      linarith

theorem normEntry_const {m : List (List ℚ)} {x : ℚ} {j : ℕ} (hx : x ∈ column m j)
    (hconst : ∀ y ∈ column m j, ∀ z ∈ column m j, y = z) :
    normEntry m j x = 0 := by
  have hne : column m j ≠ [] := by
    intro he
    rw [he] at hx
    cases hx
  have hmn : listMin (column m j) ∈ column m j := listMin_mem hne
  have : x = listMin (column m j) := hconst x hx _ hmn
  rw [normEntry, this, sub_self, zero_div]

theorem rawMatrix_row_length {g : Graph} {t : String} {names : List String} {row : List ℚ}
    (h : row ∈ rawMatrix g t names) : row.length = names.length := by
  rcases List.mem_map.mp h with ⟨p, _, he⟩
  rw [← he, List.length_map]

theorem length_rawMatrix (g : Graph) (t : String) (names : List String) :
    (rawMatrix g t names).length = (nodesOfType g t).length := by
  simp [rawMatrix]

end Normalize

section KeyedFilterMap

variable {α κ β : Type} [DecidableEq κ]

theorem alookup_filterMap_of_not_mem (l : List α) (key : α → κ)
    (f : α → Option (κ × β)) (hkey : ∀ a b, f a = some b → b.1 = key a)
    {t : κ} (ht : t ∉ l.map key) : alookup (l.filterMap f) t = none := by
  induction l with
  | nil => rfl
  | cons a rest ih =>
      simp only [List.map_cons, List.mem_cons] at ht
      push_neg at ht
      rw [List.filterMap_cons]
      cases hf : f a with
      | none => exact ih ht.2
      | some b =>
          have hb : b.1 = key a := hkey a b hf
          have hbt : ¬ b.1 = t := by
            rw [hb]
            exact fun he => ht.1 he.symm
          simp [alookup, hbt, ih ht.2]

theorem alookup_filterMap_keyed (l : List α) (key : α → κ) (c : α → Bool) (F : α → β)
    (hnd : (l.map key).Nodup) {e : α} (he : e ∈ l) :
    alookup (l.filterMap (fun a => if c a then none else some (key a, F a))) (key e) =
      if c e then none else some (F e) := by
  have hkey : ∀ a (b : κ × β),
      (if c a then none else some (key a, F a)) = some b → b.1 = key a := by
    intro a b hb
    by_cases hc : c a
    · rw [if_pos hc] at hb
      cases hb
    · rw [if_neg hc] at hb
      injection hb with hb2
      rw [← hb2]
  induction l with
  | nil => cases he
  | cons a rest ih =>
      simp only [List.map_cons, List.nodup_cons] at hnd
      rw [List.filterMap_cons]
      rcases List.mem_cons.mp he with hea | her
      · subst hea
        by_cases hc : c e
        · rw [if_pos hc, if_pos hc]
          exact alookup_filterMap_of_not_mem rest key _ hkey hnd.1
        · rw [if_neg hc, if_neg hc]
          simp [alookup]
      · have hne : key e ≠ key a := by
          intro he2
          exact hnd.1 (he2 ▸ List.mem_map_of_mem key her)
        by_cases hc : c a
        · rw [if_pos hc]
          exact ih hnd.2 her
        · rw [if_neg hc]
          have : ¬ key a = key e := fun h2 => hne h2.symm
          simp only [alookup, if_neg this]
          exact ih hnd.2 her

end KeyedFilterMap

theorem alookup_buildFeatures (g : Graph) {t : String} {names : List String}
    (h : (t, names) ∈ NODE_FEATURE_SPECS) :
    alookup (buildFeatures g) t =
      if (nodesOfType g t).isEmpty then none
      else some (normalizeMatrix (rawMatrix g t names)) := by
  have hnd : (NODE_FEATURE_SPECS.map Prod.fst).Nodup := by decide
  exact alookup_filterMap_keyed NODE_FEATURE_SPECS Prod.fst
    (fun e => (nodesOfType g e.1).isEmpty)
    (fun e => normalizeMatrix (rawMatrix g e.1 e.2)) hnd h

/-- C2: for a node type with a non-empty declared feature list and at
least one node, `_features` stores the min-max normalized matrix: it has
one row per node of the type and one column per declared feature, every
entry lies in `[0, 1]`, each entry is `(value - column min) / range`
with the range substituted by `1` when `max = min` (so division by zero
never occurs), and a constant raw column normalizes to all zeros. -/
theorem claim_C2 (tb : Tables) (t : String) (names : List String)
    (hspec : (t, names) ∈ NODE_FEATURE_SPECS) (hnames : names ≠ [])
    (hnodes : nodesOfType (buildGraph tb).g t ≠ []) :
    alookup (buildFeatures (buildGraph tb).g) t =
      some (normalizeMatrix (rawMatrix (buildGraph tb).g t names))
    ∧ (normalizeMatrix (rawMatrix (buildGraph tb).g t names)).length =
        (nodesOfType (buildGraph tb).g t).length
    ∧ (∀ row ∈ normalizeMatrix (rawMatrix (buildGraph tb).g t names),
        row.length = names.length)
    ∧ (∀ row ∈ normalizeMatrix (rawMatrix (buildGraph tb).g t names),
        ∀ v ∈ row, 0 ≤ v ∧ v ≤ 1)
    ∧ (∀ row ∈ normalizeMatrix (rawMatrix (buildGraph tb).g t names),
        ∃ raw ∈ rawMatrix (buildGraph tb).g t names,
          ∀ j < names.length,
            row.getD j 0 =
              normEntry (rawMatrix (buildGraph tb).g t names) j (raw.getD j 0))
    ∧ (∀ j < names.length,
        (∀ y ∈ column (rawMatrix (buildGraph tb).g t names) j,
         ∀ z ∈ column (rawMatrix (buildGraph tb).g t names) j, y = z) →
        ∀ row ∈ normalizeMatrix (rawMatrix (buildGraph tb).g t names),
          row.getD j 0 = 0) := by
  set g := (buildGraph tb).g
  set raw := rawMatrix g t names with hraw
  refine ⟨?_, ?_, ?_, ?_, ?_, ?_⟩
  · rw [alookup_buildFeatures g hspec, if_neg]
    rw [List.isEmpty_iff]
    exact hnodes
  · rw [length_normalizeMatrix, length_rawMatrix]
  · intro row hrow
    rcases List.mem_map.mp hrow with ⟨r, hr, he⟩
    rw [← he, length_normRow]
    exact rawMatrix_row_length hr
  · intro row hrow v hv
    rcases List.mem_map.mp hrow with ⟨r, hr, he⟩
    rw [← he] at hv
    rcases mem_normRow hv with ⟨j, hj, hve⟩
    have hmem : r.getD j 0 ∈ column raw j := by
      rw [column]
      exact List.mem_map.mpr ⟨r, hr, rfl⟩
    rw [hve]
    exact normEntry_bounds hmem
  · intro row hrow
    rcases List.mem_map.mp hrow with ⟨r, hr, he⟩
    refine ⟨r, hr, ?_⟩
    intro j hj
    have hjr : j < r.length := by
      rw [rawMatrix_row_length hr]
      exact hj
    rw [← he]
    exact normRow_getD raw r hjr
  · intro j hj hconst row hrow
    rcases List.mem_map.mp hrow with ⟨r, hr, he⟩
    have hjr : j < r.length := by
      rw [rawMatrix_row_length hr]
      exact hj
    have hmem : r.getD j 0 ∈ column raw j := by
      rw [column]
      exact List.mem_map.mpr ⟨r, hr, rfl⟩
    rw [← he, normRow_getD raw r hjr]
    exact normEntry_const hmem hconst

/-- C2 witness: the supplier feature matrix of the demo tables. -/
theorem claim_C2_witness :
    (("supplier", featSpec "supplier") ∈ NODE_FEATURE_SPECS
      ∧ featSpec "supplier" ≠ []
      ∧ nodesOfType (buildGraph demoTables).g "supplier" ≠ [])
    ∧ (∀ row ∈ normalizeMatrix
          (rawMatrix (buildGraph demoTables).g "supplier" (featSpec "supplier")),
        ∀ v ∈ row, 0 ≤ v ∧ v ≤ 1) :=
  ⟨⟨by decide, by decide, by decide⟩,
   (claim_C2 demoTables "supplier" (featSpec "supplier") (by decide) (by decide)
      (by decide)).2.2.2.1⟩

section EdgeBlocks

theorem buildNodes_g_edges (tb : Tables) : (buildNodes tb).g.edges = [] := by
  simpa [buildNodes] using addNodeList_edges (nodeEntries tb) ⟨[], []⟩

theorem buildGraph_edges (tb : Tables) :
    (buildGraph tb).g.edges =
      allEdges (buildNodes tb).g tb (buildNodes tb).country_by_name := by
  have h : (buildGraph tb).g.edges =
      (buildNodes tb).g.edges ++
        allEdges (buildNodes tb).g tb (buildNodes tb).country_by_name := rfl
  rw [h, buildNodes_g_edges, List.nil_append]

theorem suppliesEdges_spec {g : Graph} {links : List SourcingLinkRow} :
    ∀ e ∈ suppliesEdges g links, ∃ l ∈ links,
      e = ⟨l.supplier_id, l.component_id, "supplies",
            [("is_primary", (l.is_primary : ℚ)), ("unit_price_usd", l.unit_price_usd)]⟩
      ∧ g.hasNode l.supplier_id = true ∧ g.hasNode l.component_id = true := by
  intro e he
  rcases List.mem_filterMap.mp he with ⟨l, hl, hf⟩
  by_cases hc : (g.hasNode l.supplier_id && g.hasNode l.component_id) = true
  · rw [if_pos hc] at hf
    simp only [Bool.and_eq_true] at hc
    exact ⟨l, hl, (Option.some.inj hf).symm, hc.1, hc.2⟩
  · rw [if_neg hc] at hf
    cases hf

theorem locatedInEdges_spec {g : Graph} {byName : List (String × String)}
    {rows : List SupplierRow} :
    ∀ e ∈ locatedInEdges g byName rows, ∃ r ∈ rows, ∃ c,
      alookup byName r.country = some c ∧ c ≠ "" ∧
      e = ⟨r.supplier_id, c, "located_in", []⟩ ∧
      g.hasNode r.supplier_id = true ∧ g.hasNode c = true := by
  intro e he
  rcases List.mem_filterMap.mp he with ⟨r, hr, hf⟩
  dsimp only at hf
  by_cases hc : (g.hasNode r.supplier_id && pyTruthy (alookup byName r.country)
      && g.hasNode ((alookup byName r.country).getD "")) = true
  · rw [if_pos hc] at hf
    simp only [Bool.and_eq_true] at hc
    obtain ⟨⟨h1, h2⟩, h3⟩ := hc
    cases halk : alookup byName r.country with
    | none => rw [halk] at h2; cases h2
    | some c =>
        rw [halk] at h2 h3 hf
        have hcne : c ≠ "" := by
          intro hce
          subst hce
          exact absurd h2 (by decide)
        exact ⟨r, hr, c, halk, hcne, (Option.some.inj hf).symm, h1, h3⟩
  · rw [if_neg hc] at hf
    cases hf

theorem contractEdges_spec {g : Graph} {rows : List ContractRow} :
    ∀ e ∈ contractEdges g rows, ∃ r ∈ rows,
      (e = ⟨r.contract_id, r.primary_component_id, "covers", []⟩
        ∨ e = ⟨r.contract_id, r.supplier_id, "signed_with", []⟩)
      ∧ g.hasNode e.src = true ∧ g.hasNode e.dst = true := by
  intro e he
  rcases List.mem_flatMap.mp he with ⟨r, hr, hin⟩
  rcases List.mem_append.mp hin with h | h
  · by_cases hc : (g.hasNode r.contract_id && g.hasNode r.primary_component_id) = true
    · rw [if_pos hc] at h
      simp only [List.mem_singleton] at h
      subst h
      simp only [Bool.and_eq_true] at hc
      exact ⟨r, hr, Or.inl rfl, hc.1, hc.2⟩
    · rw [if_neg hc] at h
      cases h
  · by_cases hc : (g.hasNode r.contract_id && g.hasNode r.supplier_id) = true
    · rw [if_pos hc] at h
      simp only [List.mem_singleton] at h
      subst h
      simp only [Bool.and_eq_true] at hc
      exact ⟨r, hr, Or.inr rfl, hc.1, hc.2⟩
    · rw [if_neg hc] at h
      cases h

theorem routeEdges_spec {g : Graph} {byName : List (String × String)}
    {rows : List RouteRow} :
    ∀ e ∈ routeEdges g byName rows, ∃ r ∈ rows,
      g.hasNode r.route_id = true ∧
      ((∃ c, alookup byName r.origin_country = some c ∧ c ≠ "" ∧ g.hasNode c = true ∧
          e = ⟨r.route_id, c, "originates_in", []⟩)
        ∨ (∃ c, alookup byName r.destination_country = some c ∧ c ≠ "" ∧ g.hasNode c = true ∧
          e = ⟨r.route_id, c, "delivers_to", []⟩)
        ∨ (g.hasNode r.component_id = true ∧
          e = ⟨r.route_id, r.component_id, "carries", []⟩)) := by
  intro e he
  rcases List.mem_flatMap.mp he with ⟨r, hr, hin⟩
  by_cases hroute : g.hasNode r.route_id = true
  · rw [if_pos hroute] at hin
    dsimp only at hin
    rcases List.mem_append.mp hin with h12 | h3
    · rcases List.mem_append.mp h12 with h1 | h2
      · by_cases hc : (pyTruthy (alookup byName r.origin_country)
            && g.hasNode ((alookup byName r.origin_country).getD "")) = true
        · rw [if_pos hc] at h1
          simp only [List.mem_singleton] at h1
          subst h1
          simp only [Bool.and_eq_true] at hc
          cases halk : alookup byName r.origin_country with
          | none => rw [halk] at hc; exact absurd hc.1 (by decide)
          | some c =>
              rw [halk] at hc
              have hcne : c ≠ "" := by
                intro hce
                subst hce
                exact absurd hc.1 (by decide)
              exact ⟨r, hr, hroute, Or.inl ⟨c, halk, hcne, hc.2, rfl⟩⟩
        · rw [if_neg hc] at h1
          cases h1
      · by_cases hc : (pyTruthy (alookup byName r.destination_country)
            && g.hasNode ((alookup byName r.destination_country).getD "")) = true
        · rw [if_pos hc] at h2
          simp only [List.mem_singleton] at h2
          subst h2
          simp only [Bool.and_eq_true] at hc
          cases halk : alookup byName r.destination_country with
          | none => rw [halk] at hc; exact absurd hc.1 (by decide)
          | some c =>
              rw [halk] at hc
              have hcne : c ≠ "" := by
                intro hce
                subst hce
                exact absurd hc.1 (by decide)
              exact ⟨r, hr, hroute, Or.inr (Or.inl ⟨c, halk, hcne, hc.2, rfl⟩)⟩
        · rw [if_neg hc] at h2
          cases h2
    · by_cases hc : g.hasNode r.component_id = true
      · rw [if_pos hc] at h3
        simp only [List.mem_singleton] at h3
        subst h3
        exact ⟨r, hr, hroute, Or.inr (Or.inr ⟨hc, rfl⟩)⟩
      · rw [if_neg hc] at h3
        cases h3
  · rw [if_neg hroute] at hin
    cases hin

theorem coSupplierEdges_spec {g : Graph} {links : List SourcingLinkRow} :
    ∀ e ∈ coSupplierEdges g links, ∃ p ∈ coPairs links,
      g.hasNode p.1 = true ∧ g.hasNode p.2 = true ∧
      (e = ⟨p.1, p.2, "co_supplier", []⟩ ∨ e = ⟨p.2, p.1, "co_supplier", []⟩) := by
  intro e he
  rcases List.mem_flatMap.mp he with ⟨p, hp, hin⟩
  by_cases hc : (g.hasNode p.1 && g.hasNode p.2) = true
  · rw [if_pos hc] at hin
    simp only [Bool.and_eq_true] at hc
    rcases List.mem_cons.mp hin with h | h
    · exact ⟨p, hp, hc.1, hc.2, Or.inl h⟩
    · rcases List.mem_singleton.mp h with h2
      exact ⟨p, hp, hc.1, hc.2, Or.inr h2⟩
  · rw [if_neg hc] at hin
    cases hin

theorem tradesWithEdges_spec {g : Graph} {byName : List (String × String)}
    {routes : List RouteRow} :
    ∀ e ∈ tradesWithEdges g byName routes, ∃ p ∈ twPairs byName routes,
      g.hasNode p.1 = true ∧ g.hasNode p.2 = true ∧
      e = ⟨p.1, p.2, "trades_with", []⟩ := by
  intro e he
  rcases List.mem_filterMap.mp he with ⟨p, hp, hf⟩
  by_cases hc : (g.hasNode p.1 && g.hasNode p.2) = true
  · rw [if_pos hc] at hf
    simp only [Bool.and_eq_true] at hc
    exact ⟨p, hp, hc.1, hc.2, (Option.some.inj hf).symm⟩
  · rw [if_neg hc] at hf
    cases hf

theorem allEdges_endpoints {g : Graph} {tb : Tables} {byName : List (String × String)} :
    ∀ e ∈ allEdges g tb byName, g.hasNode e.src = true ∧ g.hasNode e.dst = true := by
  intro e he
  simp only [allEdges, List.mem_append] at he
  rcases he with ((((h | h) | h) | h) | h) | h
  · rcases suppliesEdges_spec e h with ⟨l, _, he2, h1, h2⟩
    rw [he2]
    exact ⟨h1, h2⟩
  · rcases locatedInEdges_spec e h with ⟨r, _, c, _, _, he2, h1, h2⟩
    rw [he2]
    exact ⟨h1, h2⟩
  · rcases contractEdges_spec e h with ⟨r, _, _, h1, h2⟩
    exact ⟨h1, h2⟩
  · rcases routeEdges_spec e h with ⟨r, _, hroute, hcase⟩
    rcases hcase with ⟨c, _, _, hcn, he2⟩ | ⟨c, _, _, hcn, he2⟩ | ⟨hcn, he2⟩ <;>
      rw [he2] <;> exact ⟨hroute, hcn⟩
  · rcases coSupplierEdges_spec e h with ⟨p, _, h1, h2, hcase⟩
    rcases hcase with he2 | he2 <;> rw [he2]
    · exact ⟨h1, h2⟩
    · exact ⟨h2, h1⟩
  · rcases tradesWithEdges_spec e h with ⟨p, _, h1, h2, he2⟩
    rw [he2]
    exact ⟨h1, h2⟩

end EdgeBlocks

/-- C5: edge materialization is reference-safe.  Every edge of the built
graph has both endpoints present as nodes, and a join-table row whose
component reference is not a node contributes no `supplies` edge (in the
embedding every build is a total function, so no build can raise). -/
theorem claim_C5 (tb : Tables) :
    (∀ e ∈ (buildGraph tb).g.edges,
        (buildGraph tb).g.hasNode e.src = true ∧ (buildGraph tb).g.hasNode e.dst = true)
    ∧ ∀ l ∈ tb.sourcing_links, (buildGraph tb).g.hasNode l.component_id = false →
        countRel (buildGraph tb).g "supplies" l.supplier_id l.component_id = 0 := by
  have hmain : ∀ e ∈ (buildGraph tb).g.edges,
      (buildGraph tb).g.hasNode e.src = true ∧ (buildGraph tb).g.hasNode e.dst = true := by
    intro e he
    rw [buildGraph_edges] at he
    exact allEdges_endpoints e he
  refine ⟨hmain, ?_⟩
  intro l _ hmiss
  rw [countRel, List.countP_eq_zero]
  intro e he hpred
  simp only [relPred, Bool.and_eq_true, beq_iff_eq] at hpred
  have := (hmain e he).2
  rw [hpred.2] at this
  rw [this] at hmiss
  cases hmiss

/-- C5 witness: a concrete edge of the demo build has both endpoints in
the graph. -/
theorem claim_C5_witness :
    demoEdge ∈ (buildGraph demoTables).g.edges ∧
      (buildGraph demoTables).g.hasNode demoEdge.src = true ∧
      (buildGraph demoTables).g.hasNode demoEdge.dst = true :=
  ⟨by decide, (claim_C5 demoTables).1 demoEdge (by decide)⟩

section Loader

variable {τ : Type}

theorem loadNamed_ok (dataDir : String) (dir : List (String × τ)) (names : List String)
    (h : ∀ t ∈ names, (alookup dir (csvPath dataDir t)).isSome = true) :
    ∃ tabs, loadNamed dataDir dir names = .ok tabs ∧ tabs.map Prod.fst = names ∧
      ∀ p ∈ tabs, alookup dir (csvPath dataDir p.1) = some p.2 := by
  induction names with
  | nil => exact ⟨[], rfl, rfl, by simp⟩
  | cons t rest ih =>
      have ht := h t (List.mem_cons_self _ _)
      rcases Option.isSome_iff_exists.mp ht with ⟨tab, htab⟩
      rcases ih (fun s hs => h s (List.mem_cons_of_mem _ hs)) with ⟨tabs, hok, hmap, hvals⟩
      refine ⟨(t, tab) :: tabs, ?_, by simp [hmap], ?_⟩
      · simp [loadNamed, htab, hok]
      · intro p hp
        rcases List.mem_cons.mp hp with hp1 | hp2
        · subst hp1
          exact htab
        · exact hvals p hp2

theorem loadNamed_error (dataDir : String) (dir : List (String × τ)) (names : List String)
    (e : MissingInputError) (h : loadNamed dataDir dir names = .error e) :
    alookup dir e.path = none ∧ (∃ t ∈ names, e.path = csvPath dataDir t) ∧
      e.command = "python -m src.data.generator" := by
  induction names with
  | nil => simp [loadNamed] at h
  | cons t rest ih =>
      cases halk : alookup dir (csvPath dataDir t) with
      | none =>
          simp only [loadNamed, halk] at h
          have he : (⟨csvPath dataDir t, "python -m src.data.generator"⟩ :
              MissingInputError) = e := by
            injection h with h2
          rw [← he]
          exact ⟨halk, ⟨t, List.mem_cons_self _ _, rfl⟩, rfl⟩
      | some tab =>
          cases hrec : loadNamed dataDir dir rest with
          | error e2 =>
              simp only [loadNamed, halk, hrec] at h
              have he : e2 = e := by injection h
              subst he
              rcases ih hrec with ⟨h1, ⟨s, hs, hp⟩, h3⟩
              exact ⟨h1, ⟨s, List.mem_cons_of_mem _ hs, hp⟩, h3⟩
          | ok l => simp [loadNamed, halk, hrec] at h

theorem loadNamed_error_of_missing (dataDir : String) (dir : List (String × τ))
    (names : List String) (h : ∃ t ∈ names, alookup dir (csvPath dataDir t) = none) :
    ∃ e, loadNamed dataDir dir names = .error e := by
  induction names with
  | nil =>
      rcases h with ⟨t, ht, _⟩
      cases ht
  | cons t rest ih =>
      cases halk : alookup dir (csvPath dataDir t) with
      | none =>
          exact ⟨⟨csvPath dataDir t, "python -m src.data.generator"⟩,
            by simp [loadNamed, halk]⟩
      | some tab =>
          rcases h with ⟨s, hs, hnone⟩
          rcases List.mem_cons.mp hs with hs1 | hs2
          · subst hs1
            rw [halk] at hnone
            cases hnone
          · rcases ih ⟨s, hs2, hnone⟩ with ⟨e, herr⟩
            exact ⟨e, by simp [loadNamed, halk, herr]⟩

end Loader

/-- C8: `_load` fails with a missing-input error exactly when one of the
six required files is absent: the error names the missing file's path
and the generation command, and its message is the raised exception
text; when all six files exist, loading succeeds with one table per
required name, in order. -/
theorem claim_C8 {τ : Type} (dataDir : String) (dir : List (String × τ)) :
    ((∀ t ∈ REQUIRED_TABLES, (alookup dir (csvPath dataDir t)).isSome = true) →
      ∃ tabs, loadTables dataDir dir = .ok tabs ∧ tabs.map Prod.fst = REQUIRED_TABLES ∧
        ∀ p ∈ tabs, alookup dir (csvPath dataDir p.1) = some p.2)
    ∧ (∀ e, loadTables dataDir dir = .error e →
        alookup dir e.path = none
        ∧ (∃ t ∈ REQUIRED_TABLES, e.path = csvPath dataDir t)
        ∧ e.command = "python -m src.data.generator"
        ∧ e.message = "Missing " ++ e.path ++ ". Run: python -m src.data.generator")
    ∧ ((∃ t ∈ REQUIRED_TABLES, alookup dir (csvPath dataDir t) = none) →
        ∃ e, loadTables dataDir dir = .error e) := by
  refine ⟨?_, ?_, ?_⟩
  · intro h
    exact loadNamed_ok dataDir dir REQUIRED_TABLES h
  · intro e he
    rcases loadNamed_error dataDir dir REQUIRED_TABLES e he with ⟨h1, h2, h3⟩
    refine ⟨h1, h2, h3, ?_⟩
    rw [MissingInputError.message, h3, String.append_assoc]
    rfl
  · intro h
    exact loadNamed_error_of_missing dataDir dir REQUIRED_TABLES h

/-- C8 witness: with all six files present loading succeeds; with
`routes.csv` absent it fails with an error. -/
theorem claim_C8_witness :
    ((∀ t ∈ REQUIRED_TABLES, (alookup demoDir (csvPath "data" t)).isSome = true) ∧
      ∃ tabs, loadTables "data" demoDir = .ok tabs ∧
        tabs.map Prod.fst = REQUIRED_TABLES ∧
        ∀ p ∈ tabs, alookup demoDir (csvPath "data" p.1) = some p.2)
    ∧ ((∃ t ∈ REQUIRED_TABLES, alookup partialDir (csvPath "data" t) = none) ∧
      ∃ e, loadTables "data" partialDir = .error e) :=
  ⟨⟨by decide, (claim_C8 "data" demoDir).1 (by decide)⟩,
   ⟨by decide, (claim_C8 "data" partialDir).2.2 (by decide)⟩⟩

/-- C9: tolerant coercion never raises (it is a total function into
`ℚ`): `_safe` produces one float per requested key, a missing key gives
0.0, a NaN gives 0.0, `None` gives 0.0, a non-convertible string gives
0.0, and any numerically convertible value gives its float
conversion. -/
theorem claim_C9 (row : Row) (keys : List String) :
    ((safeRow row keys).map Prod.fst = keys)
    ∧ (∀ k ∈ keys, alookup (safeRow row keys) k = some (safeVal (alookup row k)))
    ∧ (∀ k, alookup row k = none → safeVal (alookup row k) = 0)
    ∧ (∀ k, alookup row k = some PyVal.nan → safeVal (alookup row k) = 0)
    ∧ (∀ k, alookup row k = some PyVal.pynone → safeVal (alookup row k) = 0)
    ∧ (∀ k s, alookup row k = some (PyVal.str s) → parseDecimal s = none →
        safeVal (alookup row k) = 0)
    ∧ (∀ k q, alookup row k = some (PyVal.num q) → safeVal (alookup row k) = q)
    ∧ (∀ k s q, alookup row k = some (PyVal.str s) → parseDecimal s = some q →
        safeVal (alookup row k) = q) := by
  refine ⟨?_, ?_, ?_, ?_, ?_, ?_, ?_, ?_⟩
  · simp [safeRow, Function.comp_def]
  · intro k hk
    induction keys with
    | nil => cases hk
    | cons k0 rest ih =>
        by_cases hk0 : k0 = k
        · subst hk0
          simp [safeRow, alookup]
        · rcases List.mem_cons.mp hk with h1 | h2
          · exact absurd h1.symm hk0
          · simpa [safeRow, alookup, hk0] using ih h2
  · intro k h
    rw [h]
    rfl
  · intro k h
    rw [h]
    rfl
  · intro k h
    rw [h]
    rfl
  · intro k s h hp
    rw [h]
    simp [safeVal, hp]
  · intro k q h
    rw [h]
    rfl
  · intro k s q h hp
    rw [h]
    simp [safeVal, hp]

/-- C9 witness: the coercion cases on a concrete row. -/
theorem claim_C9_witness :
    (alookup coercionRow "b" = some PyVal.nan ∧
      safeVal (alookup coercionRow "b") = 0)
    ∧ (alookup coercionRow "d" = some (PyVal.str "2.5") ∧
      parseDecimal "2.5" = some (5 / 2 : ℚ) ∧
      safeVal (alookup coercionRow "d") = (5 / 2 : ℚ)) :=
  ⟨⟨by decide, (claim_C9 coercionRow coercionKeys).2.2.2.1 "b" (by decide)⟩,
   ⟨by decide, by with_unfolding_all decide,
    (claim_C9 coercionRow coercionKeys).2.2.2.2.2.2.2 "d" "2.5" (5 / 2 : ℚ)
      (by decide) (by with_unfolding_all decide)⟩⟩

/-- C10: a duplicated (supplier, component) sourcing-link row makes the
co-supplier derivation emit the pair (SUP-1, SUP-1), producing exactly
two co_supplier self-loop edges on that supplier — and those are the
only co_supplier edges of the build. -/
theorem claim_C10 :
    countRel (buildGraph selfLoopTables).g "co_supplier" "SUP-1" "SUP-1" = 2
    ∧ (buildGraph selfLoopTables).g.edges.countP
        (fun e => e.relation == "co_supplier") = 2 := by
  constructor
  · with_unfolding_all decide
  · with_unfolding_all decide

section OrderAndSets

theorem char_toNat_inj {a b : Char} (h : a.toNat = b.toNat) : a = b :=
  Char.eq_of_val_eq (UInt32.ext h)

theorem charListLe_total (a b : List Char) :
    charListLe a b = true ∨ charListLe b a = true := by
  induction a generalizing b with
  | nil => exact Or.inl rfl
  | cons x xs ih =>
      cases b with
      | nil => exact Or.inr rfl
      | cons y ys =>
          by_cases hxy : x.toNat = y.toNat
          · have hyx : y.toNat = x.toNat := hxy.symm
            rcases ih ys with h | h
            · exact Or.inl (by simp [charListLe, hxy, h])
            · exact Or.inr (by simp [charListLe, hyx, h])
          · rcases Nat.lt_or_ge x.toNat y.toNat with h | h
            · exact Or.inl (by simp [charListLe, hxy, h])
            · have hyx : ¬ y.toNat = x.toNat := fun he => hxy he.symm
              have h2 : y.toNat < x.toNat :=
                lt_of_le_of_ne h (fun he => hxy he.symm)
              exact Or.inr (by simp [charListLe, hyx, h2])

theorem charListLe_antisymm {a b : List Char}
    (h1 : charListLe a b = true) (h2 : charListLe b a = true) : a = b := by
  induction a generalizing b with
  | nil =>
      cases b with
      | nil => rfl
      | cons y ys => simp [charListLe] at h2
  | cons x xs ih =>
      cases b with
      | nil => simp [charListLe] at h1
      | cons y ys =>
          by_cases hxy : x.toNat = y.toNat
          · have hx : x = y := char_toNat_inj hxy
            have hyx : y.toNat = x.toNat := hxy.symm
            rw [charListLe, if_pos hxy] at h1
            rw [charListLe, if_pos hyx] at h2
            rw [hx, ih h1 h2]
          · have hyx : ¬ y.toNat = x.toNat := fun he => hxy he.symm
            rw [charListLe, if_neg hxy] at h1
            rw [charListLe, if_neg hyx] at h2
            rw [decide_eq_true_eq] at h1 h2
            omega

theorem strLe_total (a b : String) : strLe a b = true ∨ strLe b a = true :=
  charListLe_total a.data b.data

theorem strLe_antisymm {a b : String} (h1 : strLe a b = true) (h2 : strLe b a = true) :
    a = b := by
  have h := charListLe_antisymm h1 h2
  cases a
  cases b
  exact congrArg String.mk h

theorem sortPair_sorted (p : String × String) :
    strLe (sortPair p).1 (sortPair p).2 = true := by
  rw [sortPair]
  by_cases h : strLe p.1 p.2 = true
  · rw [if_pos h]
    exact h
  · rw [if_neg h]
    rcases strLe_total p.1 p.2 with h1 | h2
    · exact absurd h1 h
    · exact h2

theorem sortPair_comm (a b : String) : sortPair (a, b) = sortPair (b, a) := by
  rw [sortPair, sortPair]
  by_cases h1 : strLe a b = true
  · by_cases h2 : strLe b a = true
    · rw [if_pos h1, if_pos h2, strLe_antisymm h1 h2]
    · rw [if_pos h1, if_neg h2]
  · by_cases h2 : strLe b a = true
    · rw [if_neg h1, if_pos h2]
    · rcases strLe_total a b with h | h
      · exact absurd h h1
      · exact absurd h h2

theorem sortPair_cases (a b : String) :
    sortPair (a, b) = (a, b) ∨ sortPair (a, b) = (b, a) := by
  rw [sortPair]
  by_cases h : strLe a b = true
  · exact Or.inl (by rw [if_pos h])
  · exact Or.inr (by rw [if_neg h])

theorem mem_dedupInsert {α : Type} [DecidableEq α] (l : List α) (x y : α) :
    y ∈ dedupInsert l x ↔ y ∈ l ∨ y = x := by
  by_cases h : x ∈ l
  · rw [dedupInsert, if_pos h]
    constructor
    · exact Or.inl
    · rintro (hy | hy)
      · exact hy
      · exact hy ▸ h
  · rw [dedupInsert, if_neg h]
    simp [List.mem_append]

theorem nodup_dedupInsert {α : Type} [DecidableEq α] {l : List α} (x : α)
    (h : l.Nodup) : (dedupInsert l x).Nodup := by
  by_cases hx : x ∈ l
  · rw [dedupInsert, if_pos hx]
    exact h
  · rw [dedupInsert, if_neg hx]
    simp [List.nodup_append, h, hx]

theorem mem_foldl_dedupInsert {α β : Type} [DecidableEq β] (f : α → β) (ps : List α)
    (acc : List β) (y : β) :
    y ∈ ps.foldl (fun acc p => dedupInsert acc (f p)) acc ↔
      y ∈ acc ∨ ∃ p ∈ ps, f p = y := by
  induction ps generalizing acc with
  | nil => simp
  | cons p rest ih =>
      rw [List.foldl_cons, ih, mem_dedupInsert]
      constructor
      · rintro ((h | h) | ⟨q, hq, hfq⟩)
        · exact Or.inl h
        · exact Or.inr ⟨p, List.mem_cons_self _ _, h.symm⟩
        · exact Or.inr ⟨q, List.mem_cons_of_mem _ hq, hfq⟩
      · rintro (h | ⟨q, hq, hfq⟩)
        · exact Or.inl (Or.inl h)
        · rcases List.mem_cons.mp hq with h1 | h2
          · subst h1
            exact Or.inl (Or.inr hfq.symm)
          · exact Or.inr ⟨q, h2, hfq⟩

theorem nodup_foldl_dedupInsert {α β : Type} [DecidableEq β] (f : α → β) (ps : List α)
    (acc : List β) (h : acc.Nodup) :
    (ps.foldl (fun acc p => dedupInsert acc (f p)) acc).Nodup := by
  induction ps generalizing acc with
  | nil => exact h
  | cons p rest ih => exact ih _ (nodup_dedupInsert (f p) h)

theorem mem_addSortedPairs (co : List (String × String)) (sups : List String)
    (y : String × String) :
    y ∈ addSortedPairs co sups ↔ y ∈ co ∨ ∃ p ∈ listPairs sups, sortPair p = y :=
  mem_foldl_dedupInsert sortPair (listPairs sups) co y

theorem mem_coPairs_aux (m : List (String × List String))
    (acc : List (String × String)) (y : String × String) :
    y ∈ m.foldl (fun acc e => addSortedPairs acc e.2) acc ↔
      y ∈ acc ∨ ∃ e ∈ m, ∃ p ∈ listPairs e.2, sortPair p = y := by
  induction m generalizing acc with
  | nil => simp
  | cons e rest ih =>
      rw [List.foldl_cons, ih, mem_addSortedPairs]
      constructor
      · rintro ((h | h) | ⟨q, hq, hp⟩)
        · exact Or.inl h
        · exact Or.inr ⟨e, List.mem_cons_self _ _, h⟩
        · exact Or.inr ⟨q, List.mem_cons_of_mem _ hq, hp⟩
      · rintro (h | ⟨q, hq, hp⟩)
        · exact Or.inl (Or.inl h)
        · rcases List.mem_cons.mp hq with h1 | h2
          · subst h1
            exact Or.inl (Or.inr hp)
          · exact Or.inr ⟨q, h2, hp⟩

theorem mem_coPairs (links : List SourcingLinkRow) (y : String × String) :
    y ∈ coPairs links ↔
      ∃ e ∈ compToSups links, ∃ p ∈ listPairs e.2, sortPair p = y := by
  rw [coPairs, mem_coPairs_aux]
  simp

theorem nodup_coPairs (links : List SourcingLinkRow) : (coPairs links).Nodup := by
  rw [coPairs]
  generalize compToSups links = m
  have : ∀ (acc : List (String × String)), acc.Nodup →
      (m.foldl (fun acc e => addSortedPairs acc e.2) acc).Nodup := by
    induction m with
    | nil => exact fun acc h => h
    | cons e rest ih =>
        intro acc h
        exact ih _ (nodup_foldl_dedupInsert sortPair (listPairs e.2) acc h)
  exact this [] List.nodup_nil

theorem coPairs_sorted {links : List SourcingLinkRow} {p : String × String}
    (h : p ∈ coPairs links) : strLe p.1 p.2 = true := by
  rcases (mem_coPairs links p).mp h with ⟨e, _, q, _, hq⟩
  rw [← hq]
  exact sortPair_sorted q

theorem compToSupsAux_mem (links : List SourcingLinkRow)
    (m : List (String × List String)) (c s : String) :
    (∃ sups, alookup (compToSupsAux links m) c = some sups ∧ s ∈ sups) ↔
      (∃ sups, alookup m c = some sups ∧ s ∈ sups) ∨
        ∃ l ∈ links, l.component_id = c ∧ l.supplier_id = s := by
  induction links generalizing m with
  | nil => simp [compToSupsAux]
  | cons l rest ih =>
      rw [compToSupsAux, ih]
      by_cases hkey : l.component_id = c
      · subst hkey
        constructor
        · rintro (⟨sups, hs, hmem⟩ | ⟨l2, hl2, hc2, hs2⟩)
          · rw [alookup_assocUpsert_self] at hs
            cases halk : alookup m l.component_id with
            | none =>
                rw [halk] at hs
                have he : [l.supplier_id] = sups := Option.some.inj hs
                rw [← he] at hmem
                have h2 := List.mem_singleton.mp hmem
                exact Or.inr ⟨l, List.mem_cons_self _ _, rfl, h2.symm⟩
            | some old =>
                rw [halk] at hs
                have he : old ++ [l.supplier_id] = sups := Option.some.inj hs
                rw [← he] at hmem
                rcases List.mem_append.mp hmem with h2 | h2
                · exact Or.inl ⟨old, rfl, h2⟩
                · have h3 := List.mem_singleton.mp h2
                  exact Or.inr ⟨l, List.mem_cons_self _ _, rfl, h3.symm⟩
          · exact Or.inr ⟨l2, List.mem_cons_of_mem _ hl2, hc2, hs2⟩
        · rintro (⟨sups, hs, hmem⟩ | ⟨l2, hl2, hc2, hs2⟩)
          · left
            refine ⟨_, alookup_assocUpsert_self m l.component_id _ _, ?_⟩
            rw [hs]
            exact List.mem_append_left _ hmem
          · rcases List.mem_cons.mp hl2 with h1 | h2
            · subst h1
              left
              refine ⟨_, alookup_assocUpsert_self m l2.component_id _ _, ?_⟩
              cases halk : alookup m l2.component_id with
              | none => simp [halk, ← hs2]
              | some old => simp [halk, ← hs2]
            · exact Or.inr ⟨l2, h2, hc2, hs2⟩
      · constructor
        · rintro (⟨sups, hs, hmem⟩ | ⟨l2, hl2, hc2, hs2⟩)
          · rw [alookup_assocUpsert_ne m _ _ hkey] at hs
            exact Or.inl ⟨sups, hs, hmem⟩
          · exact Or.inr ⟨l2, List.mem_cons_of_mem _ hl2, hc2, hs2⟩
        · rintro (⟨sups, hs, hmem⟩ | ⟨l2, hl2, hc2, hs2⟩)
          · exact Or.inl ⟨sups, by rw [alookup_assocUpsert_ne m _ _ hkey]; exact hs, hmem⟩
          · rcases List.mem_cons.mp hl2 with h1 | h2
            · subst h1
              exact absurd hc2 hkey
            · exact Or.inr ⟨l2, h2, hc2, hs2⟩

theorem compToSups_mem (links : List SourcingLinkRow) (c s : String) :
    (∃ sups, alookup (compToSups links) c = some sups ∧ s ∈ sups) ↔
      ∃ l ∈ links, l.component_id = c ∧ l.supplier_id = s := by
  rw [compToSups, compToSupsAux_mem]
  simp [alookup]

theorem listPairs_complete {a b : String} {l : List String}
    (ha : a ∈ l) (hb : b ∈ l) (hne : a ≠ b) :
    (a, b) ∈ listPairs l ∨ (b, a) ∈ listPairs l := by
  induction l with
  | nil => cases ha
  | cons x xs ih =>
      rcases List.mem_cons.mp ha with ha1 | ha2
      · subst ha1
        have hb2 : b ∈ xs := by
          rcases List.mem_cons.mp hb with hb1 | hb2
          · exact absurd hb1.symm hne
          · exact hb2
        left
        rw [listPairs]
        exact List.mem_append_left _ (List.mem_map.mpr ⟨b, hb2, rfl⟩)
      · rcases List.mem_cons.mp hb with hb1 | hb2
        · subst hb1
          right
          rw [listPairs]
          exact List.mem_append_left _ (List.mem_map.mpr ⟨a, ha2, rfl⟩)
        · rcases ih ha2 hb2 with h | h
          · left
            rw [listPairs]
            exact List.mem_append_right _ h
          · right
            rw [listPairs]
            exact List.mem_append_right _ h

theorem twPairsAux_mem (byName : List (String × String)) (routes : List RouteRow)
    (tw : List (String × String)) (y : String × String) :
    y ∈ twPairsAux byName routes tw ↔
      y ∈ tw ∨ ∃ r ∈ routes,
        pyTruthy (alookup byName r.origin_country) = true ∧
        pyTruthy (alookup byName r.destination_country) = true ∧
        ((alookup byName r.origin_country).getD "",
          (alookup byName r.destination_country).getD "") = y := by
  induction routes generalizing tw with
  | nil => simp [twPairsAux]
  | cons r rest ih =>
      rw [twPairsAux, ih]
      by_cases hc : (pyTruthy (alookup byName r.origin_country) &&
          pyTruthy (alookup byName r.destination_country)) = true
      · rw [if_pos hc, mem_dedupInsert]
        simp only [Bool.and_eq_true] at hc
        constructor
        · rintro ((h | h) | ⟨q, hq, h1, h2, h3⟩)
          · exact Or.inl h
          · exact Or.inr ⟨r, List.mem_cons_self _ _, hc.1, hc.2, h.symm⟩
          · exact Or.inr ⟨q, List.mem_cons_of_mem _ hq, h1, h2, h3⟩
        · rintro (h | ⟨q, hq, h1, h2, h3⟩)
          · exact Or.inl (Or.inl h)
          · rcases List.mem_cons.mp hq with hq1 | hq2
            · subst hq1
              exact Or.inl (Or.inr h3.symm)
            · exact Or.inr ⟨q, hq2, h1, h2, h3⟩
      · rw [if_neg hc]
        constructor
        · rintro (h | ⟨q, hq, h1, h2, h3⟩)
          · exact Or.inl h
          · exact Or.inr ⟨q, List.mem_cons_of_mem _ hq, h1, h2, h3⟩
        · rintro (h | ⟨q, hq, h1, h2, h3⟩)
          · exact Or.inl h
          · rcases List.mem_cons.mp hq with hq1 | hq2
            · subst hq1
              rw [h1, h2] at hc
              simp at hc
            · exact Or.inr ⟨q, hq2, h1, h2, h3⟩

theorem nodup_twPairs (byName : List (String × String)) (routes : List RouteRow) :
    (twPairs byName routes).Nodup := by
  rw [twPairs]
  have : ∀ (tw : List (String × String)), tw.Nodup →
      (twPairsAux byName routes tw).Nodup := by
    induction routes with
    | nil => exact fun tw h => h
    | cons r rest ih =>
        intro tw h
        rw [twPairsAux]
        by_cases hc : (pyTruthy (alookup byName r.origin_country) &&
            pyTruthy (alookup byName r.destination_country)) = true
        · rw [if_pos hc]
          exact ih _ (nodup_dedupInsert _ h)
        · rw [if_neg hc]
          exact ih _ h
  exact this [] List.nodup_nil

end OrderAndSets

section Counting

theorem countP_relPred_zero {l : List Edge} {rel x y : String}
    (h : ∀ e ∈ l, ¬ e.relation = rel) : l.countP (relPred rel x y) = 0 := by
  rw [List.countP_eq_zero]
  intro e he hp
  simp only [relPred, Bool.and_eq_true, beq_iff_eq] at hp
  exact h e he hp.1.1

theorem suppliesEdges_rel {g : Graph} {l : List SourcingLinkRow} :
    ∀ e ∈ suppliesEdges g l, e.relation = "supplies" := by
  intro e he
  rcases suppliesEdges_spec e he with ⟨l2, _, he2, _, _⟩
  rw [he2]

theorem locatedInEdges_rel {g : Graph} {byName : List (String × String)}
    {rows : List SupplierRow} :
    ∀ e ∈ locatedInEdges g byName rows, e.relation = "located_in" := by
  intro e he
  rcases locatedInEdges_spec e he with ⟨r, _, c, _, _, he2, _, _⟩
  rw [he2]

theorem contractEdges_rel {g : Graph} {rows : List ContractRow} :
    ∀ e ∈ contractEdges g rows,
      e.relation = "covers" ∨ e.relation = "signed_with" := by
  intro e he
  rcases contractEdges_spec e he with ⟨r, _, hcase, _, _⟩
  rcases hcase with he2 | he2
  · exact Or.inl (by rw [he2])
  · exact Or.inr (by rw [he2])

theorem routeEdges_rel {g : Graph} {byName : List (String × String)}
    {rows : List RouteRow} :
    ∀ e ∈ routeEdges g byName rows,
      e.relation = "originates_in" ∨ e.relation = "delivers_to" ∨
        e.relation = "carries" := by
  intro e he
  rcases routeEdges_spec e he with ⟨r, _, _, hcase⟩
  rcases hcase with ⟨c, _, _, _, he2⟩ | ⟨c, _, _, _, he2⟩ | ⟨_, he2⟩
  · exact Or.inl (by rw [he2])
  · exact Or.inr (Or.inl (by rw [he2]))
  · exact Or.inr (Or.inr (by rw [he2]))

theorem coSupplierEdges_rel {g : Graph} {links : List SourcingLinkRow} :
    ∀ e ∈ coSupplierEdges g links, e.relation = "co_supplier" := by
  intro e he
  rcases coSupplierEdges_spec e he with ⟨p, _, _, _, hcase⟩
  rcases hcase with he2 | he2 <;> rw [he2]

theorem tradesWithEdges_rel {g : Graph} {byName : List (String × String)}
    {routes : List RouteRow} :
    ∀ e ∈ tradesWithEdges g byName routes, e.relation = "trades_with" := by
  intro e he
  rcases tradesWithEdges_spec e he with ⟨p, _, _, _, he2⟩
  rw [he2]

theorem countRel_co_block (tb : Tables) (x y : String) :
    countRel (buildGraph tb).g "co_supplier" x y =
      (coSupplierEdges (buildNodes tb).g tb.sourcing_links).countP
        (relPred "co_supplier" x y) := by
  have hc : countRel (buildGraph tb).g "co_supplier" x y =
      ((buildGraph tb).g.edges).countP (relPred "co_supplier" x y) := rfl
  rw [hc, buildGraph_edges, allEdges, List.countP_append, List.countP_append,
    List.countP_append, List.countP_append, List.countP_append]
  have z1 : (suppliesEdges (buildNodes tb).g tb.sourcing_links).countP
      (relPred "co_supplier" x y) = 0 :=
    countP_relPred_zero (fun e he => by rw [suppliesEdges_rel e he]; decide)
  have z2 : (locatedInEdges (buildNodes tb).g (buildNodes tb).country_by_name
      tb.suppliers).countP (relPred "co_supplier" x y) = 0 :=
    countP_relPred_zero (fun e he => by rw [locatedInEdges_rel e he]; decide)
  have z3 : (contractEdges (buildNodes tb).g tb.contracts).countP
      (relPred "co_supplier" x y) = 0 :=
    countP_relPred_zero (fun e he => by
      rcases contractEdges_rel e he with h | h <;> rw [h] <;> decide)
  have z4 : (routeEdges (buildNodes tb).g (buildNodes tb).country_by_name
      tb.routes).countP (relPred "co_supplier" x y) = 0 :=
    countP_relPred_zero (fun e he => by
      rcases routeEdges_rel e he with h | h | h <;> rw [h] <;> decide)
  have z6 : (tradesWithEdges (buildNodes tb).g (buildNodes tb).country_by_name
      tb.routes).countP (relPred "co_supplier" x y) = 0 :=
    countP_relPred_zero (fun e he => by rw [tradesWithEdges_rel e he]; decide)
  rw [z1, z2, z3, z4, z6]
  omega

theorem countRel_tw_block (tb : Tables) (x y : String) :
    countRel (buildGraph tb).g "trades_with" x y =
      (tradesWithEdges (buildNodes tb).g (buildNodes tb).country_by_name
        tb.routes).countP (relPred "trades_with" x y) := by
  have hc : countRel (buildGraph tb).g "trades_with" x y =
      ((buildGraph tb).g.edges).countP (relPred "trades_with" x y) := rfl
  rw [hc, buildGraph_edges, allEdges, List.countP_append, List.countP_append,
    List.countP_append, List.countP_append, List.countP_append]
  have z1 : (suppliesEdges (buildNodes tb).g tb.sourcing_links).countP
      (relPred "trades_with" x y) = 0 :=
    countP_relPred_zero (fun e he => by rw [suppliesEdges_rel e he]; decide)
  have z2 : (locatedInEdges (buildNodes tb).g (buildNodes tb).country_by_name
      tb.suppliers).countP (relPred "trades_with" x y) = 0 :=
    countP_relPred_zero (fun e he => by rw [locatedInEdges_rel e he]; decide)
  have z3 : (contractEdges (buildNodes tb).g tb.contracts).countP
      (relPred "trades_with" x y) = 0 :=
    countP_relPred_zero (fun e he => by
      rcases contractEdges_rel e he with h | h <;> rw [h] <;> decide)
  have z4 : (routeEdges (buildNodes tb).g (buildNodes tb).country_by_name
      tb.routes).countP (relPred "trades_with" x y) = 0 :=
    countP_relPred_zero (fun e he => by
      rcases routeEdges_rel e he with h | h | h <;> rw [h] <;> decide)
  have z5 : (coSupplierEdges (buildNodes tb).g tb.sourcing_links).countP
      (relPred "trades_with" x y) = 0 :=
    countP_relPred_zero (fun e he => by rw [coSupplierEdges_rel e he]; decide)
  rw [z1, z2, z3, z4, z5]
  omega

theorem relPred_co_eval (x y a b : String) (ats : List (String × ℚ)) :
    relPred "co_supplier" x y ⟨a, b, "co_supplier", ats⟩ = (a == x && b == y) := by
  simp [relPred]

theorem coEdges_count_zero (g : Graph) (co : List (String × String)) (x y : String)
    (hx : (x, y) ∉ co) (hyx : (y, x) ∉ co) :
    (co.flatMap (fun p =>
        if g.hasNode p.1 && g.hasNode p.2 then
          [⟨p.1, p.2, "co_supplier", []⟩, ⟨p.2, p.1, "co_supplier", []⟩]
        else [])).countP (relPred "co_supplier" x y) = 0 := by
  induction co with
  | nil => rfl
  | cons p rest ih =>
      rw [List.flatMap_cons, List.countP_append]
      simp only [List.mem_cons] at hx hyx
      push_neg at hx hyx
      have hhead : (if g.hasNode p.1 && g.hasNode p.2 then
          ([⟨p.1, p.2, "co_supplier", []⟩, ⟨p.2, p.1, "co_supplier", []⟩] : List Edge)
        else []).countP (relPred "co_supplier" x y) = 0 := by
        by_cases hguard : (g.hasNode p.1 && g.hasNode p.2) = true
        · rw [if_pos hguard, List.countP_eq_zero]
          intro e he hp
          rcases List.mem_cons.mp he with h1 | h1
          · subst h1
            rw [relPred_co_eval] at hp
            simp only [Bool.and_eq_true, beq_iff_eq] at hp
            exact hx.1 (Prod.ext_iff.mpr ⟨hp.1, hp.2⟩).symm
          · rcases List.mem_singleton.mp h1 with h2
            subst h2
            rw [relPred_co_eval] at hp
            simp only [Bool.and_eq_true, beq_iff_eq] at hp
            exact hyx.1 (Prod.ext_iff.mpr ⟨hp.2, hp.1⟩).symm
        · rw [if_neg hguard]
          rfl
      rw [hhead, ih hx.2 hyx.2]

theorem coEdges_count_one (g : Graph) (co : List (String × String)) (x y : String)
    (hnd : co.Nodup) (hsort : ∀ p ∈ co, strLe p.1 p.2 = true)
    (hxy : x ≠ y) (hx : g.hasNode x = true) (hy : g.hasNode y = true)
    (hmem : (x, y) ∈ co ∨ (y, x) ∈ co) :
    (co.flatMap (fun p =>
        if g.hasNode p.1 && g.hasNode p.2 then
          [⟨p.1, p.2, "co_supplier", []⟩, ⟨p.2, p.1, "co_supplier", []⟩]
        else [])).countP (relPred "co_supplier" x y) = 1 := by
  induction co with
  | nil =>
      rcases hmem with h | h <;> cases h
  | cons p rest ih =>
      rw [List.flatMap_cons, List.countP_append]
      have hnd2 := List.nodup_cons.mp hnd
      have hyx : ¬ y = x := fun h => hxy h.symm
      by_cases hp1 : p = (x, y)
      · subst hp1
        have hguard : (g.hasNode (x, y).1 && g.hasNode (x, y).2) = true := by
          simp [hx, hy]
        rw [if_pos hguard]
        have hhead : ([⟨(x, y).1, (x, y).2, "co_supplier", []⟩,
            ⟨(x, y).2, (x, y).1, "co_supplier", []⟩] : List Edge).countP
            (relPred "co_supplier" x y) = 1 := by
          simp [List.countP_cons, relPred_co_eval, hyx]
        have hrest : (rest.flatMap (fun p =>
            if g.hasNode p.1 && g.hasNode p.2 then
              [⟨p.1, p.2, "co_supplier", []⟩, ⟨p.2, p.1, "co_supplier", []⟩]
            else [])).countP (relPred "co_supplier" x y) = 0 := by
          apply coEdges_count_zero
          · exact hnd2.1
          · intro hmem2
            have h1 := hsort (y, x) (List.mem_cons_of_mem _ hmem2)
            have h2 := hsort (x, y) (List.mem_cons_self _ _)
            exact hxy (strLe_antisymm h2 h1)
        rw [hhead, hrest]
      · by_cases hp2 : p = (y, x)
        · subst hp2
          have hguard : (g.hasNode (y, x).1 && g.hasNode (y, x).2) = true := by
            simp [hx, hy]
          rw [if_pos hguard]
          have hhead : ([⟨(y, x).1, (y, x).2, "co_supplier", []⟩,
              ⟨(y, x).2, (y, x).1, "co_supplier", []⟩] : List Edge).countP
              (relPred "co_supplier" x y) = 1 := by
            simp [List.countP_cons, relPred_co_eval, hyx]
          have hrest : (rest.flatMap (fun p =>
              if g.hasNode p.1 && g.hasNode p.2 then
                [⟨p.1, p.2, "co_supplier", []⟩, ⟨p.2, p.1, "co_supplier", []⟩]
              else [])).countP (relPred "co_supplier" x y) = 0 := by
            apply coEdges_count_zero
            · intro hmem2
              have h1 := hsort (x, y) (List.mem_cons_of_mem _ hmem2)
              have h2 := hsort (y, x) (List.mem_cons_self _ _)
              exact hxy (strLe_antisymm h1 h2)
            · exact hnd2.1
          rw [hhead, hrest]
        · have hhead : (if g.hasNode p.1 && g.hasNode p.2 then
              ([⟨p.1, p.2, "co_supplier", []⟩, ⟨p.2, p.1, "co_supplier", []⟩] : List Edge)
            else []).countP (relPred "co_supplier" x y) = 0 := by
            by_cases hguard : (g.hasNode p.1 && g.hasNode p.2) = true
            · rw [if_pos hguard, List.countP_eq_zero]
              intro e he hp
              rcases List.mem_cons.mp he with h1 | h1
              · subst h1
                rw [relPred_co_eval] at hp
                simp only [Bool.and_eq_true, beq_iff_eq] at hp
                exact hp1 (Prod.ext_iff.mpr ⟨hp.1, hp.2⟩)
              · rcases List.mem_singleton.mp h1 with h2
                subst h2
                rw [relPred_co_eval] at hp
                simp only [Bool.and_eq_true, beq_iff_eq] at hp
                exact hp2 (Prod.ext_iff.mpr ⟨hp.2, hp.1⟩)
            · rw [if_neg hguard]
              rfl
          have hmem2 : (x, y) ∈ rest ∨ (y, x) ∈ rest := by
            rcases hmem with h | h
            · rcases List.mem_cons.mp h with h1 | h1
              · exact absurd h1.symm hp1
              · exact Or.inl h1
            · rcases List.mem_cons.mp h with h1 | h1
              · exact absurd h1.symm hp2
              · exact Or.inr h1
          rw [hhead, ih hnd2.2 (fun q hq => hsort q (List.mem_cons_of_mem _ hq)) hmem2]

theorem coEdges_count_symm (g : Graph) (co : List (String × String)) (x y : String) :
    (co.flatMap (fun p =>
        if g.hasNode p.1 && g.hasNode p.2 then
          [⟨p.1, p.2, "co_supplier", []⟩, ⟨p.2, p.1, "co_supplier", []⟩]
        else [])).countP (relPred "co_supplier" x y) =
      (co.flatMap (fun p =>
        if g.hasNode p.1 && g.hasNode p.2 then
          [⟨p.1, p.2, "co_supplier", []⟩, ⟨p.2, p.1, "co_supplier", []⟩]
        else [])).countP (relPred "co_supplier" y x) := by
  induction co with
  | nil => rfl
  | cons p rest ih =>
      rw [List.flatMap_cons, List.countP_append, List.countP_append, ih]
      by_cases hguard : (g.hasNode p.1 && g.hasNode p.2) = true
      · rw [if_pos hguard]
        have hcount : ∀ u v : String,
            List.countP (relPred "co_supplier" u v)
              ([⟨p.1, p.2, "co_supplier", []⟩, ⟨p.2, p.1, "co_supplier", []⟩] :
                List Edge) =
              0 + (if p.2 = u ∧ p.1 = v then 1 else 0) +
                (if p.1 = u ∧ p.2 = v then 1 else 0) := by
          intro u v
          simp only [List.countP_cons, List.countP_nil, relPred_co_eval,
            Bool.and_eq_true, beq_iff_eq]
        rw [hcount x y, hcount y x]
        have e1 : (if (p.2 = x ∧ p.1 = y) then 1 else 0) =
            (if (p.1 = y ∧ p.2 = x) then 1 else 0) := if_congr and_comm rfl rfl
        have e2 : (if (p.1 = x ∧ p.2 = y) then 1 else 0) =
            (if (p.2 = y ∧ p.1 = x) then 1 else 0) := if_congr and_comm rfl rfl
        rw [e1, e2]
        omega
      · rw [if_neg hguard]
        simp only [List.countP_nil]

theorem relPred_tw_eval (x y a b : String) (ats : List (String × ℚ)) :
    relPred "trades_with" x y ⟨a, b, "trades_with", ats⟩ = (a == x && b == y) := by
  simp [relPred]

theorem twEdges_count (g : Graph) (tw : List (String × String)) (x y : String)
    (hnd : tw.Nodup) :
    (tw.filterMap (fun p =>
        if g.hasNode p.1 && g.hasNode p.2 then
          some ⟨p.1, p.2, "trades_with", []⟩
        else none)).countP (relPred "trades_with" x y) =
      if (x, y) ∈ tw ∧ g.hasNode x = true ∧ g.hasNode y = true then 1 else 0 := by
  induction tw with
  | nil => simp
  | cons p rest ih =>
      rw [List.filterMap_cons]
      have hnd2 := List.nodup_cons.mp hnd
      by_cases hguard : (g.hasNode p.1 && g.hasNode p.2) = true
      · rw [if_pos hguard, List.countP_cons, ih hnd2.2]
        simp only [Bool.and_eq_true] at hguard
        by_cases hp : p = (x, y)
        · subst hp
          have hpt : relPred "trades_with" x y
              ⟨(x, y).1, (x, y).2, "trades_with", []⟩ = true := by
            rw [relPred_tw_eval]
            simp
          rw [hpt, if_pos rfl]
          rw [if_neg (fun hcon => hnd2.1 hcon.1), if_pos ⟨List.mem_cons_self _ _,
            hguard.1, hguard.2⟩]
        · have hpf : ¬ relPred "trades_with" x y
              ⟨p.1, p.2, "trades_with", []⟩ = true := by
            rw [relPred_tw_eval]
            intro hq
            simp only [Bool.and_eq_true, beq_iff_eq] at hq
            exact hp (Prod.ext_iff.mpr ⟨hq.1, hq.2⟩)
          rw [if_neg hpf]
          have hmemiff : ((x, y) ∈ rest ∧ g.hasNode x = true ∧ g.hasNode y = true) ↔
              ((x, y) ∈ p :: rest ∧ g.hasNode x = true ∧ g.hasNode y = true) := by
            constructor
            · rintro ⟨h1, h2⟩
              exact ⟨List.mem_cons_of_mem _ h1, h2⟩
            · rintro ⟨h1, h2⟩
              rcases List.mem_cons.mp h1 with hc | hc
              · exact absurd hc.symm hp
              · exact ⟨hc, h2⟩
          rw [if_congr hmemiff rfl rfl]
          omega
      · rw [if_neg hguard, ih hnd2.2]
        by_cases hH : g.hasNode x = true ∧ g.hasNode y = true
        · have hp : p ≠ (x, y) := by
            intro he
            subst he
            simp [hH.1, hH.2] at hguard
          have hmemiff : ((x, y) ∈ rest ∧ g.hasNode x = true ∧ g.hasNode y = true) ↔
              ((x, y) ∈ p :: rest ∧ g.hasNode x = true ∧ g.hasNode y = true) := by
            constructor
            · rintro ⟨h1, h2⟩
              exact ⟨List.mem_cons_of_mem _ h1, h2⟩
            · rintro ⟨h1, h2⟩
              rcases List.mem_cons.mp h1 with hc | hc
              · exact absurd hc.symm hp
              · exact ⟨hc, h2⟩
          rw [if_congr hmemiff rfl rfl]
        · rw [if_neg (fun hcon => hH hcon.2), if_neg (fun hcon => hH hcon.2)]

theorem pyTruthy_some_ne {c : String} (h : pyTruthy (some c) = true) : c ≠ "" := by
  intro he
  subst he
  exact absurd h (by decide)

theorem pyTruthy_of_ne {c : String} (h : c ≠ "") : pyTruthy (some c) = true := by
  rw [pyTruthy]
  cases hc : c.isEmpty with
  | true => exact absurd ((String.isEmpty_iff c).mp hc) h
  | false => rfl

theorem mem_twPairs_iff (byName : List (String × String)) (routes : List RouteRow)
    (c1 c2 : String) :
    (c1, c2) ∈ twPairs byName routes ↔
      ∃ r ∈ routes, alookup byName r.origin_country = some c1 ∧ c1 ≠ "" ∧
        alookup byName r.destination_country = some c2 ∧ c2 ≠ "" := by
  rw [twPairs, twPairsAux_mem]
  simp only [List.not_mem_nil, false_or]
  constructor
  · rintro ⟨r, hr, h1, h2, h3⟩
    cases ho : alookup byName r.origin_country with
    | none => rw [ho] at h1; cases h1
    | some a =>
        cases hd : alookup byName r.destination_country with
        | none => rw [hd] at h2; cases h2
        | some b =>
            rw [ho] at h1
            rw [hd] at h2
            rw [ho, hd] at h3
            have ha : a = c1 := congrArg Prod.fst h3
            have hb : b = c2 := congrArg Prod.snd h3
            subst ha
            subst hb
            exact ⟨r, hr, ho, pyTruthy_some_ne h1, hd, pyTruthy_some_ne h2⟩
  · rintro ⟨r, hr, ho, hne1, hd, hne2⟩
    refine ⟨r, hr, ?_, ?_, ?_⟩
    · rw [ho]
      exact pyTruthy_of_ne hne1
    · rw [hd]
      exact pyTruthy_of_ne hne2
    · rw [ho, hd]
      rfl

end Counting

/-- C4: the trades_with derivation adds at most one directed edge per
resolved (origin id, destination id) pair, and such an edge exists
exactly when some route resolves to that ordered pair (truthily) with
both countries present as nodes; since a pair is not deduplicated
against its reverse, both directed edges exist whenever both orderings
occur among the routes. -/
theorem claim_C4 (tb : Tables) (c1 c2 : String) :
    countRel (buildGraph tb).g "trades_with" c1 c2 ≤ 1
    ∧ (countRel (buildGraph tb).g "trades_with" c1 c2 = 1 ↔
        ((buildGraph tb).g.hasNode c1 = true ∧ (buildGraph tb).g.hasNode c2 = true ∧
          ∃ r ∈ tb.routes,
            alookup (buildNodes tb).country_by_name r.origin_country = some c1 ∧
              c1 ≠ "" ∧
            alookup (buildNodes tb).country_by_name r.destination_country = some c2 ∧
              c2 ≠ "")) := by
  have hdef : tradesWithEdges (buildNodes tb).g (buildNodes tb).country_by_name
      tb.routes =
      (twPairs (buildNodes tb).country_by_name tb.routes).filterMap (fun p =>
        if (buildNodes tb).g.hasNode p.1 && (buildNodes tb).g.hasNode p.2 then
          some ⟨p.1, p.2, "trades_with", []⟩
        else none) := rfl
  have hcount := twEdges_count (buildNodes tb).g
    (twPairs (buildNodes tb).country_by_name tb.routes) c1 c2
    (nodup_twPairs (buildNodes tb).country_by_name tb.routes)
  have hmain : countRel (buildGraph tb).g "trades_with" c1 c2 =
      if (c1, c2) ∈ twPairs (buildNodes tb).country_by_name tb.routes ∧
          (buildNodes tb).g.hasNode c1 = true ∧ (buildNodes tb).g.hasNode c2 = true
        then 1 else 0 := by
    rw [countRel_tw_block, hdef, hcount]
  have hnode1 : (buildGraph tb).g.hasNode c1 = (buildNodes tb).g.hasNode c1 := rfl
  have hnode2 : (buildGraph tb).g.hasNode c2 = (buildNodes tb).g.hasNode c2 := rfl
  constructor
  · rw [hmain]
    by_cases hc : ((c1, c2) ∈ twPairs (buildNodes tb).country_by_name tb.routes ∧
        (buildNodes tb).g.hasNode c1 = true ∧ (buildNodes tb).g.hasNode c2 = true)
    · rw [if_pos hc]
    · rw [if_neg hc]
      omega
  · rw [hmain, hnode1, hnode2]
    by_cases hc : ((c1, c2) ∈ twPairs (buildNodes tb).country_by_name tb.routes ∧
        (buildNodes tb).g.hasNode c1 = true ∧ (buildNodes tb).g.hasNode c2 = true)
    · rw [if_pos hc]
      simp only [true_iff]
      rcases hc with ⟨hmem, h1, h2⟩
      exact ⟨h1, h2, (mem_twPairs_iff _ _ _ _).mp hmem⟩
    · rw [if_neg hc]
      constructor
      · intro h
        cases h
      · rintro ⟨h1, h2, hex⟩
        exact absurd ⟨(mem_twPairs_iff _ _ _ _).mpr hex, h1, h2⟩ hc

/-- C4 witness: the demo route Narnia → Oz yields exactly one
trades_with edge. -/
theorem claim_C4_witness :
    countRel (buildGraph demoTables).g "trades_with" "CTY-1" "CTY-2" = 1 :=
  (claim_C4 demoTables "CTY-1" "CTY-2").2.mpr (by decide)

/-- C3: two distinct suppliers that are both graph nodes and co-occur
under at least one shared component in the sourcing-links table get
exactly one co_supplier edge in each direction (two edges total, the
pair being processed once even with several shared components), and
co_supplier edge counts are symmetric over the whole graph. -/
theorem claim_C3 (tb : Tables) (s1 s2 : String) (hne : s1 ≠ s2)
    (h1 : (buildGraph tb).g.hasNode s1 = true)
    (h2 : (buildGraph tb).g.hasNode s2 = true)
    (hshare : ∃ l1 ∈ tb.sourcing_links, ∃ l2 ∈ tb.sourcing_links,
      l1.component_id = l2.component_id ∧
      l1.supplier_id = s1 ∧ l2.supplier_id = s2) :
    countRel (buildGraph tb).g "co_supplier" s1 s2 = 1
    ∧ countRel (buildGraph tb).g "co_supplier" s2 s1 = 1
    ∧ ∀ a b, countRel (buildGraph tb).g "co_supplier" a b =
        countRel (buildGraph tb).g "co_supplier" b a := by
  have hdef : coSupplierEdges (buildNodes tb).g tb.sourcing_links =
      (coPairs tb.sourcing_links).flatMap (fun p =>
        if (buildNodes tb).g.hasNode p.1 && (buildNodes tb).g.hasNode p.2 then
          [⟨p.1, p.2, "co_supplier", []⟩, ⟨p.2, p.1, "co_supplier", []⟩]
        else []) := rfl
  have hn1 : (buildNodes tb).g.hasNode s1 = true := h1
  have hn2 : (buildNodes tb).g.hasNode s2 = true := h2
  -- the shared component puts the sorted pair into the co set
  have hpair : sortPair (s1, s2) ∈ coPairs tb.sourcing_links := by
    rcases hshare with ⟨l1, hl1, l2, hl2, hcc, hs1, hs2⟩
    have hm1 : ∃ sups, alookup (compToSups tb.sourcing_links) l1.component_id =
        some sups ∧ s1 ∈ sups :=
      (compToSups_mem tb.sourcing_links l1.component_id s1).mpr ⟨l1, hl1, rfl, hs1⟩
    have hm2 : ∃ sups, alookup (compToSups tb.sourcing_links) l1.component_id =
        some sups ∧ s2 ∈ sups :=
      (compToSups_mem tb.sourcing_links l1.component_id s2).mpr
        ⟨l2, hl2, hcc.symm, hs2⟩
    rcases hm1 with ⟨sups, hsup, hmem1⟩
    rcases hm2 with ⟨sups2, hsup2, hmem2⟩
    rw [hsup] at hsup2
    have hse : sups2 = sups := (Option.some.inj hsup2).symm
    subst hse
    rcases listPairs_complete hmem1 hmem2 hne with hp | hp
    · exact (mem_coPairs tb.sourcing_links (sortPair (s1, s2))).mpr
        ⟨(l1.component_id, sups2), mem_of_alookup hsup, (s1, s2), hp, rfl⟩
    · exact (mem_coPairs tb.sourcing_links (sortPair (s1, s2))).mpr
        ⟨(l1.component_id, sups2), mem_of_alookup hsup, (s2, s1), hp,
          sortPair_comm s2 s1⟩
  have hmem : (s1, s2) ∈ coPairs tb.sourcing_links ∨
      (s2, s1) ∈ coPairs tb.sourcing_links := by
    rcases sortPair_cases s1 s2 with h | h
    · exact Or.inl (h ▸ hpair)
    · exact Or.inr (h ▸ hpair)
  have hsorted : ∀ p ∈ coPairs tb.sourcing_links, strLe p.1 p.2 = true :=
    fun p hp => coPairs_sorted hp
  refine ⟨?_, ?_, ?_⟩
  · rw [countRel_co_block, hdef]
    exact coEdges_count_one (buildNodes tb).g (coPairs tb.sourcing_links) s1 s2
      (nodup_coPairs tb.sourcing_links) hsorted hne hn1 hn2 hmem
  · rw [countRel_co_block, hdef]
    exact coEdges_count_one (buildNodes tb).g (coPairs tb.sourcing_links) s2 s1
      (nodup_coPairs tb.sourcing_links) hsorted (fun h => hne h.symm) hn2 hn1
      hmem.symm
  · intro a b
    rw [countRel_co_block, countRel_co_block, hdef]
    exact coEdges_count_symm (buildNodes tb).g (coPairs tb.sourcing_links) a b

/-- C3 witness: SUP-1 and SUP-2 share CMP-1 in the demo tables and get
exactly one co_supplier edge in each direction. -/
theorem claim_C3_witness :
    countRel (buildGraph demoTables).g "co_supplier" "SUP-1" "SUP-2" = 1 ∧
      countRel (buildGraph demoTables).g "co_supplier" "SUP-2" "SUP-1" = 1 :=
  ⟨(claim_C3 demoTables "SUP-1" "SUP-2" (by decide) (by decide) (by decide)
      (by decide)).1,
   (claim_C3 demoTables "SUP-1" "SUP-2" (by decide) (by decide) (by decide)
      (by decide)).2.1⟩

section Typing

theorem typeOf_of_typedRef {g : Graph} {k t : String}
    (ht : typedRef g k t = true) (hn : g.hasNode k = true) :
    typeOf g k = some t := by
  rw [typedRef] at ht
  rw [Graph.hasNode] at hn
  rw [typeOf]
  cases halk : alookup g.nodes k with
  | none =>
      rw [halk] at hn
      cases hn
  | some d =>
      rw [halk] at ht
      simp only [beq_iff_eq] at ht
      simp [ht]

theorem mkByName_values (rows : List CountryRow) (m : List (String × String))
    (name cid : String)
    (h : alookup (mkByName rows m) name = some cid) :
    (∃ r ∈ rows, r.country_id = cid) ∨ alookup m name = some cid := by
  induction rows generalizing m with
  | nil => exact Or.inr h
  | cons r rest ih =>
      rw [mkByName] at h
      rcases ih _ h with h1 | h1
      · rcases h1 with ⟨r2, hr2, hc⟩
        exact Or.inl ⟨r2, List.mem_cons_of_mem _ hr2, hc⟩
      · by_cases hk : r.name = name
        · subst hk
          rw [alookup_assocUpsert_self] at h1
          have : r.country_id = cid := by
            cases halk : alookup m r.name with
            | none => rw [halk] at h1; exact Option.some.inj h1
            | some old => rw [halk] at h1; exact Option.some.inj h1
          exact Or.inl ⟨r, List.mem_cons_self _ _, this⟩
        · rw [alookup_assocUpsert_ne m _ _ hk] at h1
          exact Or.inr h1

theorem countryByName_values {rows : List CountryRow} {name cid : String}
    (h : alookup (countryByName rows) name = some cid) :
    ∃ r ∈ rows, r.country_id = cid := by
  rcases mkByName_values rows [] name cid h with h1 | h1
  · exact h1
  · cases h1

theorem mem_assocUpsert_cases {κ α : Type} [DecidableEq κ]
    (m : List (κ × α)) (k : κ) (f : α → α) (d : α) :
    ∀ e ∈ assocUpsert m k f d,
      e ∈ m ∨ (∃ old ∈ m, e = (k, f old.2)) ∨ e = (k, d) := by
  induction m with
  | nil =>
      intro e he
      rcases List.mem_singleton.mp he with h
      exact Or.inr (Or.inr h)
  | cons p rest ih =>
      intro e he
      by_cases hk : p.1 = k
      · rw [assocUpsert, if_pos hk] at he
        rcases List.mem_cons.mp he with h1 | h1
        · subst hk
          exact Or.inr (Or.inl ⟨p, List.mem_cons_self _ _, h1⟩)
        · exact Or.inl (List.mem_cons_of_mem _ h1)
      · rw [assocUpsert, if_neg hk] at he
        rcases List.mem_cons.mp he with h1 | h1
        · exact Or.inl (h1 ▸ List.mem_cons_self _ _)
        · rcases ih e h1 with h2 | h2 | h2
          · exact Or.inl (List.mem_cons_of_mem _ h2)
          · rcases h2 with ⟨old, hold, he2⟩
            exact Or.inr (Or.inl ⟨old, List.mem_cons_of_mem _ hold, he2⟩)
          · exact Or.inr (Or.inr h2)

theorem compToSupsAux_values (links0 : List SourcingLinkRow) :
    ∀ (links : List SourcingLinkRow) (m : List (String × List String)),
      (∀ l ∈ links, l ∈ links0) →
      (∀ e ∈ m, ∀ s ∈ e.2, ∃ l ∈ links0, l.supplier_id = s) →
      ∀ e ∈ compToSupsAux links m, ∀ s ∈ e.2, ∃ l ∈ links0, l.supplier_id = s := by
  intro links
  induction links with
  | nil =>
      intro m _ hm
      exact hm
  | cons l rest ih =>
      intro m hsub hm
      rw [compToSupsAux]
      apply ih _ (fun q hq => hsub q (List.mem_cons_of_mem _ hq))
      intro e he s hs
      rcases mem_assocUpsert_cases m l.component_id _ [l.supplier_id] e he with
        h1 | ⟨old, hold, he2⟩ | h1
      · exact hm e h1 s hs
      · rw [he2] at hs
        rcases List.mem_append.mp hs with h2 | h2
        · exact hm old hold s h2
        · have h3 := List.mem_singleton.mp h2
          exact ⟨l, hsub l (List.mem_cons_self _ _), h3.symm⟩
      · rw [h1] at hs
        have h3 := List.mem_singleton.mp hs
        exact ⟨l, hsub l (List.mem_cons_self _ _), h3.symm⟩

theorem compToSups_values {links : List SourcingLinkRow} :
    ∀ e ∈ compToSups links, ∀ s ∈ e.2, ∃ l ∈ links, l.supplier_id = s := by
  rw [compToSups]
  exact compToSupsAux_values links links [] (fun l h => h) (by simp)

theorem listPairs_mem {a b : String} {l : List String}
    (h : (a, b) ∈ listPairs l) : a ∈ l ∧ b ∈ l := by
  induction l with
  | nil => cases h
  | cons x xs ih =>
      rw [listPairs] at h
      rcases List.mem_append.mp h with h1 | h1
      · rcases List.mem_map.mp h1 with ⟨y, hy, he⟩
        have ha : x = a := congrArg Prod.fst he
        have hb : y = b := congrArg Prod.snd he
        subst ha
        subst hb
        exact ⟨List.mem_cons_self _ _, List.mem_cons_of_mem _ hy⟩
      · rcases ih h1 with ⟨h2, h3⟩
        exact ⟨List.mem_cons_of_mem _ h2, List.mem_cons_of_mem _ h3⟩

theorem sortPair_components (p : String × String) :
    ((sortPair p).1 = p.1 ∨ (sortPair p).1 = p.2) ∧
      ((sortPair p).2 = p.1 ∨ (sortPair p).2 = p.2) := by
  rw [sortPair]
  by_cases h : strLe p.1 p.2 = true
  · rw [if_pos h]
    exact ⟨Or.inl rfl, Or.inr rfl⟩
  · rw [if_neg h]
    exact ⟨Or.inr rfl, Or.inl rfl⟩

theorem coPairs_supplier_ids {links : List SourcingLinkRow} {p : String × String}
    (h : p ∈ coPairs links) :
    (∃ l ∈ links, l.supplier_id = p.1) ∧ ∃ l ∈ links, l.supplier_id = p.2 := by
  rcases (mem_coPairs links p).mp h with ⟨e, he, q, hq, hsp⟩
  have hvals := compToSups_values e he
  rcases listPairs_mem hq with ⟨h1, h2⟩
  have hq1 := hvals q.1 h1
  have hq2 := hvals q.2 h2
  rcases sortPair_components q with ⟨hc1, hc2⟩
  rw [hsp] at hc1 hc2
  constructor
  · rcases hc1 with hh | hh
    · rw [← hh] at hq1
      exact hq1
    · rw [← hh] at hq2
      exact hq2
  · rcases hc2 with hh | hh
    · rw [← hh] at hq1
      exact hq1
    · rw [← hh] at hq2
      exact hq2

end Typing

/-- C6 counterexample: the builder checks only that a referenced key is
a node, never its type.  On `misTypedTables` the sourcing link
references two country ids, so a `supplies` edge is materialized whose
source is a country node, although the declared signature of `supplies`
is supplier → component.  This falsifies the claim as stated. -/
theorem claim_C6_counterexample :
    (⟨"CTY-1", "CTY-2", "supplies",
        [("is_primary", 1), ("unit_price_usd", 0)]⟩ : Edge)
      ∈ (buildGraph misTypedTables).g.edges
    ∧ edgeSig "supplies" = some ("supplier", "component")
    ∧ typeOf (buildGraph misTypedTables).g "CTY-1" = some "country" := by
  refine ⟨by decide, by decide, by decide⟩

/-- C6 (amended): assuming every join-table reference that names an
existing node names a node of the expected type (the code checks
existence, not type, so this is the extra assumption the counterexample
forces), every materialized edge has a source of exactly the declared
source type and a destination of exactly the declared destination type
of its relation. -/
theorem claim_C6_amended (tb : Tables)
    (hS : ∀ r ∈ tb.suppliers,
      typedRef (buildGraph tb).g r.supplier_id "supplier" = true)
    (hC : ∀ r ∈ tb.countries,
      typedRef (buildGraph tb).g r.country_id "country" = true)
    (hCt : ∀ r ∈ tb.contracts,
      typedRef (buildGraph tb).g r.contract_id "contract" = true ∧
      typedRef (buildGraph tb).g r.supplier_id "supplier" = true ∧
      typedRef (buildGraph tb).g r.primary_component_id "component" = true)
    (hR : ∀ r ∈ tb.routes,
      typedRef (buildGraph tb).g r.route_id "route" = true ∧
      typedRef (buildGraph tb).g r.component_id "component" = true)
    (hL : ∀ l ∈ tb.sourcing_links,
      typedRef (buildGraph tb).g l.supplier_id "supplier" = true ∧
      typedRef (buildGraph tb).g l.component_id "component" = true) :
    ∀ e ∈ (buildGraph tb).g.edges, ∃ st dt,
      edgeSig e.relation = some (st, dt) ∧
      typeOf (buildGraph tb).g e.src = some st ∧
      typeOf (buildGraph tb).g e.dst = some dt := by
  intro e he
  rw [buildGraph_edges] at he
  have hbn : ∀ r ∈ tb.countries,
      typedRef (buildGraph tb).g r.country_id "country" = true := hC
  simp only [allEdges, List.mem_append] at he
  rcases he with ((((h | h) | h) | h) | h) | h
  · rcases suppliesEdges_spec e h with ⟨l, hl, he2, hn1, hn2⟩
    subst he2
    exact ⟨"supplier", "component", rfl,
      typeOf_of_typedRef (hL l hl).1 hn1, typeOf_of_typedRef (hL l hl).2 hn2⟩
  · rcases locatedInEdges_spec e h with ⟨r, hr, c, hcn, _, he2, hn1, hn2⟩
    subst he2
    rcases countryByName_values hcn with ⟨r2, hr2, hcid⟩
    exact ⟨"supplier", "country", rfl,
      typeOf_of_typedRef (hS r hr) hn1,
      typeOf_of_typedRef (hcid ▸ hbn r2 hr2) hn2⟩
  · rcases contractEdges_spec e h with ⟨r, hr, hcase, hn1, hn2⟩
    rcases hcase with he2 | he2
    · subst he2
      exact ⟨"contract", "component", rfl,
        typeOf_of_typedRef (hCt r hr).1 hn1, typeOf_of_typedRef (hCt r hr).2.2 hn2⟩
    · subst he2
      exact ⟨"contract", "supplier", rfl,
        typeOf_of_typedRef (hCt r hr).1 hn1, typeOf_of_typedRef (hCt r hr).2.1 hn2⟩
  · rcases routeEdges_spec e h with ⟨r, hr, hroute, hcase⟩
    rcases hcase with ⟨c, hcn, _, hn2, he2⟩ | ⟨c, hcn, _, hn2, he2⟩ | ⟨hn2, he2⟩
    · subst he2
      rcases countryByName_values hcn with ⟨r2, hr2, hcid⟩
      exact ⟨"route", "country", rfl,
        typeOf_of_typedRef (hR r hr).1 hroute,
        typeOf_of_typedRef (hcid ▸ hbn r2 hr2) hn2⟩
    · subst he2
      rcases countryByName_values hcn with ⟨r2, hr2, hcid⟩
      exact ⟨"route", "country", rfl,
        typeOf_of_typedRef (hR r hr).1 hroute,
        typeOf_of_typedRef (hcid ▸ hbn r2 hr2) hn2⟩
    · subst he2
      exact ⟨"route", "component", rfl,
        typeOf_of_typedRef (hR r hr).1 hroute, typeOf_of_typedRef (hR r hr).2 hn2⟩
  · rcases coSupplierEdges_spec e h with ⟨p, hp, hn1, hn2, hcase⟩
    rcases coPairs_supplier_ids hp with ⟨⟨l1, hl1, hsid1⟩, ⟨l2, hl2, hsid2⟩⟩
    rcases hcase with he2 | he2
    · subst he2
      exact ⟨"supplier", "supplier", rfl,
        typeOf_of_typedRef (hsid1 ▸ (hL l1 hl1).1) hn1,
        typeOf_of_typedRef (hsid2 ▸ (hL l2 hl2).1) hn2⟩
    · subst he2
      exact ⟨"supplier", "supplier", rfl,
        typeOf_of_typedRef (hsid2 ▸ (hL l2 hl2).1) hn2,
        typeOf_of_typedRef (hsid1 ▸ (hL l1 hl1).1) hn1⟩
  · rcases tradesWithEdges_spec e h with ⟨p, hp, hn1, hn2, he2⟩
    subst he2
    have hp2 := (twPairsAux_mem (buildNodes tb).country_by_name tb.routes [] p).mp hp
    simp only [List.not_mem_nil, false_or] at hp2
    rcases hp2 with ⟨r, hr, ht1, ht2, he3⟩
    cases ho : alookup (buildNodes tb).country_by_name r.origin_country with
    | none => rw [ho] at ht1; cases ht1
    | some a =>
        cases hd : alookup (buildNodes tb).country_by_name r.destination_country with
        | none => rw [hd] at ht2; cases ht2
        | some b =>
            rw [ho, hd] at he3
            have ha : a = p.1 := congrArg Prod.fst he3
            have hb : b = p.2 := congrArg Prod.snd he3
            rcases countryByName_values (ha ▸ ho) with ⟨r1, hr1, hcid1⟩
            rcases countryByName_values (hb ▸ hd) with ⟨r2, hr2, hcid2⟩
            exact ⟨"country", "country", rfl,
              typeOf_of_typedRef (hcid1 ▸ hbn r1 hr1) hn1,
              typeOf_of_typedRef (hcid2 ▸ hbn r2 hr2) hn2⟩

/-- C6 witness: on the demo tables every reference is well-typed, and
the theorem types the first sourcing edge. -/
theorem claim_C6_witness :
    ((∀ r ∈ demoTables.suppliers,
        typedRef (buildGraph demoTables).g r.supplier_id "supplier" = true) ∧
      (∀ r ∈ demoTables.countries,
        typedRef (buildGraph demoTables).g r.country_id "country" = true) ∧
      (∀ r ∈ demoTables.contracts,
        typedRef (buildGraph demoTables).g r.contract_id "contract" = true ∧
        typedRef (buildGraph demoTables).g r.supplier_id "supplier" = true ∧
        typedRef (buildGraph demoTables).g r.primary_component_id "component" = true) ∧
      (∀ r ∈ demoTables.routes,
        typedRef (buildGraph demoTables).g r.route_id "route" = true ∧
        typedRef (buildGraph demoTables).g r.component_id "component" = true) ∧
      (∀ l ∈ demoTables.sourcing_links,
        typedRef (buildGraph demoTables).g l.supplier_id "supplier" = true ∧
        typedRef (buildGraph demoTables).g l.component_id "component" = true))
    ∧ ∃ st dt, edgeSig demoEdge.relation = some (st, dt) ∧
        typeOf (buildGraph demoTables).g demoEdge.src = some st ∧
        typeOf (buildGraph demoTables).g demoEdge.dst = some dt :=
  ⟨⟨by decide, by decide, by decide, by decide, by decide⟩,
   claim_C6_amended demoTables (by decide) (by decide) (by decide) (by decide)
     (by decide) demoEdge (by decide)⟩

section Blocks

theorem filter_block_self {β : Type} (rows : List β) (f : β → String × NodeData)
    (t : String) (hall : ∀ r ∈ rows, ((f r).2.node_type == t) = true) :
    (rows.map f).filter (fun p => p.2.node_type == t) = rows.map f :=
  List.filter_eq_self.mpr (fun p hp => by
    rcases List.mem_map.mp hp with ⟨r, hr, he⟩
    rw [← he]
    exact hall r hr)

theorem filter_block_nil {β : Type} (rows : List β) (f : β → String × NodeData)
    (t : String) (hall : ∀ r ∈ rows, ¬ ((f r).2.node_type == t) = true) :
    (rows.map f).filter (fun p => p.2.node_type == t) = [] :=
  List.filter_eq_nil_iff.mpr (fun p hp => by
    rcases List.mem_map.mp hp with ⟨r, hr, he⟩
    rw [← he]
    exact hall r hr)

theorem nodesOfType_supplier_eq (tb : Tables) (h : (allIds tb).Nodup) :
    nodesOfType (buildGraph tb).g "supplier" =
      tb.suppliers.map (fun r => (r.supplier_id, supplierNode r)) := by
  rw [nodesOfType, buildGraph_nodes_of_nodup h, nodeEntries, List.filter_append,
    List.filter_append, List.filter_append, List.filter_append]
  rw [filter_block_self _ _ _ (fun r _ => by show (("supplier" : String) == "supplier") = true; rfl),
    filter_block_nil _ (fun r => (r.component_id, componentNode r)) _
      (fun r _ => by show ¬ (("component" : String) == "supplier") = true; decide),
    filter_block_nil _ (fun r => (r.country_id, countryNode r)) _
      (fun r _ => by show ¬ (("country" : String) == "supplier") = true; decide),
    filter_block_nil _ (fun r => (r.contract_id, contractNode r)) _
      (fun r _ => by show ¬ (("contract" : String) == "supplier") = true; decide),
    filter_block_nil _ (fun r => (r.route_id, routeNode r)) _
      (fun r _ => by show ¬ (("route" : String) == "supplier") = true; decide)]
  simp

theorem nodesOfType_component_eq (tb : Tables) (h : (allIds tb).Nodup) :
    nodesOfType (buildGraph tb).g "component" =
      tb.components.map (fun r => (r.component_id, componentNode r)) := by
  rw [nodesOfType, buildGraph_nodes_of_nodup h, nodeEntries, List.filter_append,
    List.filter_append, List.filter_append, List.filter_append]
  rw [filter_block_nil _ (fun r => (r.supplier_id, supplierNode r)) _
      (fun r _ => by show ¬ (("supplier" : String) == "component") = true; decide),
    filter_block_self _ _ _ (fun r _ => by show (("component" : String) == "component") = true; rfl),
    filter_block_nil _ (fun r => (r.country_id, countryNode r)) _
      (fun r _ => by show ¬ (("country" : String) == "component") = true; decide),
    filter_block_nil _ (fun r => (r.contract_id, contractNode r)) _
      (fun r _ => by show ¬ (("contract" : String) == "component") = true; decide),
    filter_block_nil _ (fun r => (r.route_id, routeNode r)) _
      (fun r _ => by show ¬ (("route" : String) == "component") = true; decide)]
  simp

theorem nodesOfType_country_eq (tb : Tables) (h : (allIds tb).Nodup) :
    nodesOfType (buildGraph tb).g "country" =
      tb.countries.map (fun r => (r.country_id, countryNode r)) := by
  rw [nodesOfType, buildGraph_nodes_of_nodup h, nodeEntries, List.filter_append,
    List.filter_append, List.filter_append, List.filter_append]
  rw [filter_block_nil _ (fun r => (r.supplier_id, supplierNode r)) _
      (fun r _ => by show ¬ (("supplier" : String) == "country") = true; decide),
    filter_block_nil _ (fun r => (r.component_id, componentNode r)) _
      (fun r _ => by show ¬ (("component" : String) == "country") = true; decide),
    filter_block_self _ _ _ (fun r _ => by show (("country" : String) == "country") = true; rfl),
    filter_block_nil _ (fun r => (r.contract_id, contractNode r)) _
      (fun r _ => by show ¬ (("contract" : String) == "country") = true; decide),
    filter_block_nil _ (fun r => (r.route_id, routeNode r)) _
      (fun r _ => by show ¬ (("route" : String) == "country") = true; decide)]
  simp

theorem nodesOfType_contract_eq (tb : Tables) (h : (allIds tb).Nodup) :
    nodesOfType (buildGraph tb).g "contract" =
      tb.contracts.map (fun r => (r.contract_id, contractNode r)) := by
  rw [nodesOfType, buildGraph_nodes_of_nodup h, nodeEntries, List.filter_append,
    List.filter_append, List.filter_append, List.filter_append]
  rw [filter_block_nil _ (fun r => (r.supplier_id, supplierNode r)) _
      (fun r _ => by show ¬ (("supplier" : String) == "contract") = true; decide),
    filter_block_nil _ (fun r => (r.component_id, componentNode r)) _
      (fun r _ => by show ¬ (("component" : String) == "contract") = true; decide),
    filter_block_nil _ (fun r => (r.country_id, countryNode r)) _
      (fun r _ => by show ¬ (("country" : String) == "contract") = true; decide),
    filter_block_self _ _ _ (fun r _ => by show (("contract" : String) == "contract") = true; rfl),
    filter_block_nil _ (fun r => (r.route_id, routeNode r)) _
      (fun r _ => by show ¬ (("route" : String) == "contract") = true; decide)]
  simp

theorem nodesOfType_route_eq (tb : Tables) (h : (allIds tb).Nodup) :
    nodesOfType (buildGraph tb).g "route" =
      tb.routes.map (fun r => (r.route_id, routeNode r)) := by
  rw [nodesOfType, buildGraph_nodes_of_nodup h, nodeEntries, List.filter_append,
    List.filter_append, List.filter_append, List.filter_append]
  rw [filter_block_nil _ (fun r => (r.supplier_id, supplierNode r)) _
      (fun r _ => by show ¬ (("supplier" : String) == "route") = true; decide),
    filter_block_nil _ (fun r => (r.component_id, componentNode r)) _
      (fun r _ => by show ¬ (("component" : String) == "route") = true; decide),
    filter_block_nil _ (fun r => (r.country_id, countryNode r)) _
      (fun r _ => by show ¬ (("country" : String) == "route") = true; decide),
    filter_block_nil _ (fun r => (r.contract_id, contractNode r)) _
      (fun r _ => by show ¬ (("contract" : String) == "route") = true; decide),
    filter_block_self _ _ _ (fun r _ => by show (("route" : String) == "route") = true; rfl)]
  simp

theorem alookup_zip_range_lt {ids : List String} {k : String} {a : ℕ}
    (h : alookup (ids.zip (List.range ids.length)) k = some a) : a < ids.length := by
  have hmem := mem_of_alookup h
  have := List.of_mem_zip hmem
  exact List.mem_range.mp this.2

theorem idMapFor_length (tb : Tables) (h : (allIds tb).Nodup) (t : String)
    (names : List String) (hspec : (t, names) ∈ NODE_FEATURE_SPECS) :
    (idMapFor (buildGraph tb) t).length = (nodesOfType (buildGraph tb).g t).length := by
  have h5 : t = "supplier" ∨ t = "component" ∨ t = "country" ∨ t = "contract"
      ∨ t = "route" := by
    simp only [NODE_FEATURE_SPECS, List.mem_cons, List.not_mem_nil, or_false,
      Prod.mk.injEq] at hspec
    rcases hspec with ⟨h1, _⟩ | ⟨h1, _⟩ | ⟨h1, _⟩ | ⟨h1, _⟩ | ⟨h1, _⟩
    · exact Or.inl h1
    · exact Or.inr (Or.inl h1)
    · exact Or.inr (Or.inr (Or.inl h1))
    · exact Or.inr (Or.inr (Or.inr (Or.inl h1)))
    · exact Or.inr (Or.inr (Or.inr (Or.inr h1)))
  have hs : (tb.suppliers.map (·.supplier_id)).Nodup :=
    (((h.of_append_left).of_append_left).of_append_left).of_append_left
  have hc : (tb.components.map (·.component_id)).Nodup :=
    (((h.of_append_left).of_append_left).of_append_left).of_append_right
  have hcn : (tb.countries.map (·.country_id)).Nodup :=
    ((h.of_append_left).of_append_left).of_append_right
  have hct : (tb.contracts.map (·.contract_id)).Nodup :=
    (h.of_append_left).of_append_right
  have hr : (tb.routes.map (·.route_id)).Nodup := h.of_append_right
  rcases h5 with ht | ht | ht | ht | ht <;> subst ht
  · rw [show idMapFor (buildGraph tb) "supplier" = (buildGraph tb).supplier_map
      from rfl, buildGraph_supplier_map, mkIdMap_of_nodup hs,
      nodesOfType_supplier_eq tb h]
    simp [List.length_zip]
  · rw [show idMapFor (buildGraph tb) "component" = (buildGraph tb).component_map
      from rfl, buildGraph_component_map, mkIdMap_of_nodup hc,
      nodesOfType_component_eq tb h]
    simp [List.length_zip]
  · rw [show idMapFor (buildGraph tb) "country" = (buildGraph tb).country_map
      from rfl, buildGraph_country_map, mkIdMap_of_nodup hcn,
      nodesOfType_country_eq tb h]
    simp [List.length_zip]
  · rw [show idMapFor (buildGraph tb) "contract" = (buildGraph tb).contract_map
      from rfl, buildGraph_contract_map, mkIdMap_of_nodup hct,
      nodesOfType_contract_eq tb h]
    simp [List.length_zip]
  · rw [show idMapFor (buildGraph tb) "route" = (buildGraph tb).route_map
      from rfl, buildGraph_route_map, mkIdMap_of_nodup hr,
      nodesOfType_route_eq tb h]
    simp [List.length_zip]

theorem idMapFor_lookup_lt (tb : Tables) (h : (allIds tb).Nodup) (t : String)
    (names : List String) (hspec : (t, names) ∈ NODE_FEATURE_SPECS)
    {k : String} {a : ℕ} (hl : alookup (idMapFor (buildGraph tb) t) k = some a) :
    a < (nodesOfType (buildGraph tb).g t).length := by
  have h5 : t = "supplier" ∨ t = "component" ∨ t = "country" ∨ t = "contract"
      ∨ t = "route" := by
    simp only [NODE_FEATURE_SPECS, List.mem_cons, List.not_mem_nil, or_false,
      Prod.mk.injEq] at hspec
    rcases hspec with ⟨h1, _⟩ | ⟨h1, _⟩ | ⟨h1, _⟩ | ⟨h1, _⟩ | ⟨h1, _⟩
    · exact Or.inl h1
    · exact Or.inr (Or.inl h1)
    · exact Or.inr (Or.inr (Or.inl h1))
    · exact Or.inr (Or.inr (Or.inr (Or.inl h1)))
    · exact Or.inr (Or.inr (Or.inr (Or.inr h1)))
  have hs : (tb.suppliers.map (·.supplier_id)).Nodup :=
    (((h.of_append_left).of_append_left).of_append_left).of_append_left
  have hc : (tb.components.map (·.component_id)).Nodup :=
    (((h.of_append_left).of_append_left).of_append_left).of_append_right
  have hcn : (tb.countries.map (·.country_id)).Nodup :=
    ((h.of_append_left).of_append_left).of_append_right
  have hct : (tb.contracts.map (·.contract_id)).Nodup :=
    (h.of_append_left).of_append_right
  have hr : (tb.routes.map (·.route_id)).Nodup := h.of_append_right
  rcases h5 with ht | ht | ht | ht | ht <;> subst ht
  · rw [show idMapFor (buildGraph tb) "supplier" = (buildGraph tb).supplier_map
      from rfl, buildGraph_supplier_map, mkIdMap_of_nodup hs] at hl
    have := alookup_zip_range_lt hl
    rw [nodesOfType_supplier_eq tb h]
    simpa using this
  · rw [show idMapFor (buildGraph tb) "component" = (buildGraph tb).component_map
      from rfl, buildGraph_component_map, mkIdMap_of_nodup hc] at hl
    have := alookup_zip_range_lt hl
    rw [nodesOfType_component_eq tb h]
    simpa using this
  · rw [show idMapFor (buildGraph tb) "country" = (buildGraph tb).country_map
      from rfl, buildGraph_country_map, mkIdMap_of_nodup hcn] at hl
    have := alookup_zip_range_lt hl
    rw [nodesOfType_country_eq tb h]
    simpa using this
  · rw [show idMapFor (buildGraph tb) "contract" = (buildGraph tb).contract_map
      from rfl, buildGraph_contract_map, mkIdMap_of_nodup hct] at hl
    have := alookup_zip_range_lt hl
    rw [nodesOfType_contract_eq tb h]
    simpa using this
  · rw [show idMapFor (buildGraph tb) "route" = (buildGraph tb).route_map
      from rfl, buildGraph_route_map, mkIdMap_of_nodup hr] at hl
    have := alookup_zip_range_lt hl
    rw [nodesOfType_route_eq tb h]
    simpa using this

end Blocks

theorem resolvedPairs_bounds (tb : Tables) (h : (allIds tb).Nodup)
    (rel srcT dstT : String) (ns1 ns2 : List String)
    (hns1 : (srcT, ns1) ∈ NODE_FEATURE_SPECS)
    (hns2 : (dstT, ns2) ∈ NODE_FEATURE_SPECS) :
    ∀ pr ∈ resolvedPairs (buildGraph tb) rel srcT dstT,
      pr.1 < (nodesOfType (buildGraph tb).g srcT).length ∧
      pr.2 < (nodesOfType (buildGraph tb).g dstT).length := by
  intro pr hpr
  rcases List.mem_filterMap.mp hpr with ⟨ed, hed, hres⟩
  by_cases hc : (ed.relation == rel &&
      (alookup (idMapFor (buildGraph tb) srcT) ed.src).isSome &&
      (alookup (idMapFor (buildGraph tb) dstT) ed.dst).isSome) = true
  · rw [if_pos hc] at hres
    simp only [Bool.and_eq_true] at hc
    rcases Option.isSome_iff_exists.mp hc.1.2 with ⟨a, hs⟩
    rcases Option.isSome_iff_exists.mp hc.2 with ⟨b, hd⟩
    have hpr2 : (((alookup (idMapFor (buildGraph tb) srcT) ed.src).getD 0),
        ((alookup (idMapFor (buildGraph tb) dstT) ed.dst).getD 0)) = pr :=
      Option.some.inj hres
    rw [← hpr2]
    simp only [hs, hd, Option.getD_some]
    exact ⟨idMapFor_lookup_lt tb h srcT ns1 hns1 hs,
      idMapFor_lookup_lt tb h dstT ns2 hns2 hd⟩
  · rw [if_neg hc] at hres
    exact Option.noConfusion hres

/-- C7 counterexample: on `collidingTables` the supplier index map has
two entries while the supplier feature tensor has a single row, and the
emitted located_in edge-index contains the source row index 1, which is
not a valid row of the supplier tensor.  The two exports disagree, so
the claim as stated is false. -/
theorem claim_C7_counterexample :
    (buildGraph collidingTables).supplier_map.length = 2
    ∧ (alookup (buildFeatures (buildGraph collidingTables).g) "supplier").map
        List.length = some 1
    ∧ alookup (toPyg (buildGraph collidingTables)
        (buildFeatures (buildGraph collidingTables).g)).edge_index
        ("supplier", "located_in", "country") = some [(1, 0)] := by
  refine ⟨by with_unfolding_all decide, by with_unfolding_all decide,
    by with_unfolding_all decide⟩

/-- C7 (amended): under the additional assumption that natural keys are
unique within and across node types (which the counterexample shows is
necessary), the two exports agree: the tensor bundle embeds the feature
export unchanged; for every declared node type the index-map size
equals the node count of that type, the feature tensor exists exactly
when that count is positive, and its row count equals it; every emitted
edge-index entry is the resolved pair list of its relation, is
non-empty, and each pair indexes valid rows of the source and
destination feature tensors; and a relation with no resolved edges is
absent from the bundle. -/
theorem claim_C7_amended (tb : Tables) (h : (allIds tb).Nodup) :
    (toPyg (buildGraph tb) (buildFeatures (buildGraph tb).g)).x =
        buildFeatures (buildGraph tb).g
    ∧ (∀ t names, (t, names) ∈ NODE_FEATURE_SPECS →
        (idMapFor (buildGraph tb) t).length =
          (nodesOfType (buildGraph tb).g t).length
        ∧ alookup (buildFeatures (buildGraph tb).g) t =
            (if (nodesOfType (buildGraph tb).g t).isEmpty then none
             else some (normalizeMatrix (rawMatrix (buildGraph tb).g t names)))
        ∧ ∀ M, alookup (buildFeatures (buildGraph tb).g) t = some M →
            M.length = (nodesOfType (buildGraph tb).g t).length)
    ∧ (∀ key es,
        alookup (toPyg (buildGraph tb)
            (buildFeatures (buildGraph tb).g)).edge_index key = some es →
        es ≠ []
        ∧ es = resolvedPairs (buildGraph tb) key.2.1 key.1 key.2.2
        ∧ (∃ M, alookup (buildFeatures (buildGraph tb).g) key.1 = some M ∧
            ∀ pr ∈ es, pr.1 < M.length)
        ∧ (∃ M, alookup (buildFeatures (buildGraph tb).g) key.2.2 = some M ∧
            ∀ pr ∈ es, pr.2 < M.length))
    ∧ (∀ e ∈ edge_defs, resolvedPairs (buildGraph tb) e.1 e.2.1 e.2.2 = [] →
        alookup (toPyg (buildGraph tb)
            (buildFeatures (buildGraph tb).g)).edge_index
          (e.2.1, e.1, e.2.2) = none) := by
  refine ⟨rfl, ?_, ?_, ?_⟩
  · intro t names hspec
    refine ⟨idMapFor_length tb h t names hspec,
      alookup_buildFeatures _ hspec, ?_⟩
    intro M hM
    rw [alookup_buildFeatures _ hspec] at hM
    by_cases hemp : (nodesOfType (buildGraph tb).g t).isEmpty = true
    · rw [if_pos hemp] at hM
      cases hM
    · rw [if_neg hemp] at hM
      have he := Option.some.inj hM
      rw [← he, length_normalizeMatrix, length_rawMatrix]
  · intro key es hlook
    have hmem : (key, es) ∈ edge_defs.filterMap (fun a =>
        if (resolvedPairs (buildGraph tb) a.1 a.2.1 a.2.2).isEmpty then none
        else some ((a.2.1, a.1, a.2.2),
          resolvedPairs (buildGraph tb) a.1 a.2.1 a.2.2)) :=
      mem_of_alookup hlook
    rcases List.mem_filterMap.mp hmem with ⟨e, he9, hfe⟩
    by_cases hemp : (resolvedPairs (buildGraph tb) e.1 e.2.1 e.2.2).isEmpty = true
    · rw [if_pos hemp] at hfe
      cases hfe
    · rw [if_neg hemp] at hfe
      have hinj := Option.some.inj hfe
      have hkey : (e.2.1, e.1, e.2.2) = key := congrArg Prod.fst hinj
      have hes : resolvedPairs (buildGraph tb) e.1 e.2.1 e.2.2 = es :=
        congrArg Prod.snd hinj
      have hk1 : key.1 = e.2.1 := by rw [← hkey]
      have hk21 : key.2.1 = e.1 := by rw [← hkey]
      have hk22 : key.2.2 = e.2.2 := by rw [← hkey]
      have hall : ∀ e2 ∈ edge_defs, (∃ p ∈ NODE_FEATURE_SPECS, p.1 = e2.2.1) ∧
          ∃ p ∈ NODE_FEATURE_SPECS, p.1 = e2.2.2 := by decide
      rcases (hall e he9).1 with ⟨p1, hp1, hpe1⟩
      rcases (hall e he9).2 with ⟨p2, hp2, hpe2⟩
      have hns1 : (e.2.1, p1.2) ∈ NODE_FEATURE_SPECS := by
        rw [← hpe1, Prod.mk.eta]
        exact hp1
      have hns2 : (e.2.2, p2.2) ∈ NODE_FEATURE_SPECS := by
        rw [← hpe2, Prod.mk.eta]
        exact hp2
      have hbounds := resolvedPairs_bounds tb h e.1 e.2.1 e.2.2 p1.2 p2.2 hns1 hns2
      have hne : es ≠ [] := by
        rw [← hes]
        exact List.isEmpty_eq_false.mp (Bool.eq_false_iff.mpr hemp)
      rcases List.exists_mem_of_ne_nil es hne with ⟨pr0, hpr0⟩
      have hpr0r : pr0 ∈ resolvedPairs (buildGraph tb) e.1 e.2.1 e.2.2 := by
        rw [hes]
        exact hpr0
      have hb0 := hbounds pr0 hpr0r
      have hpos1 : 0 < (nodesOfType (buildGraph tb).g e.2.1).length :=
        lt_of_le_of_lt (Nat.zero_le _) hb0.1
      have hpos2 : 0 < (nodesOfType (buildGraph tb).g e.2.2).length :=
        lt_of_le_of_lt (Nat.zero_le _) hb0.2
      have hemp1 : ¬ (nodesOfType (buildGraph tb).g e.2.1).isEmpty = true := by
        rw [List.isEmpty_iff]
        intro hcon
        rw [hcon] at hpos1
        simp at hpos1
      have hemp2 : ¬ (nodesOfType (buildGraph tb).g e.2.2).isEmpty = true := by
        rw [List.isEmpty_iff]
        intro hcon
        rw [hcon] at hpos2
        simp at hpos2
      have hx1 : alookup (buildFeatures (buildGraph tb).g) e.2.1 =
          some (normalizeMatrix (rawMatrix (buildGraph tb).g e.2.1 p1.2)) := by
        rw [alookup_buildFeatures _ hns1, if_neg hemp1]
      have hx2 : alookup (buildFeatures (buildGraph tb).g) e.2.2 =
          some (normalizeMatrix (rawMatrix (buildGraph tb).g e.2.2 p2.2)) := by
        rw [alookup_buildFeatures _ hns2, if_neg hemp2]
      refine ⟨hne, ?_, ?_, ?_⟩
      · rw [hk1, hk21, hk22]
        exact hes.symm
      · refine ⟨normalizeMatrix (rawMatrix (buildGraph tb).g e.2.1 p1.2),
          by rw [hk1]; exact hx1, ?_⟩
        intro pr hpr
        have hb := hbounds pr (by rw [hes]; exact hpr)
        rw [length_normalizeMatrix, length_rawMatrix]
        exact hb.1
      · refine ⟨normalizeMatrix (rawMatrix (buildGraph tb).g e.2.2 p2.2),
          by rw [hk22]; exact hx2, ?_⟩
        intro pr hpr
        have hb := hbounds pr (by rw [hes]; exact hpr)
        rw [length_normalizeMatrix, length_rawMatrix]
        exact hb.2
  · intro e he9 hres0
    have hnd9 : (edge_defs.map (fun a => (a.2.1, a.1, a.2.2))).Nodup := by decide
    have hkeyed := alookup_filterMap_keyed edge_defs
      (fun a => (a.2.1, a.1, a.2.2))
      (fun a => (resolvedPairs (buildGraph tb) a.1 a.2.1 a.2.2).isEmpty)
      (fun a => resolvedPairs (buildGraph tb) a.1 a.2.1 a.2.2) hnd9 he9
    have hcond : (resolvedPairs (buildGraph tb) e.1 e.2.1 e.2.2).isEmpty = true := by
      rw [hres0]
      rfl
    rw [if_pos hcond] at hkeyed
    exact hkeyed

/-- C7 witness: the amended theorem instantiated on the demo tables. -/
theorem claim_C7_witness :
    (allIds demoTables).Nodup ∧
      ∀ key es,
        alookup (toPyg (buildGraph demoTables)
            (buildFeatures (buildGraph demoTables).g)).edge_index key = some es →
        es ≠ []
        ∧ es = resolvedPairs (buildGraph demoTables) key.2.1 key.1 key.2.2
        ∧ (∃ M, alookup (buildFeatures (buildGraph demoTables).g) key.1 = some M ∧
            ∀ pr ∈ es, pr.1 < M.length)
        ∧ (∃ M, alookup (buildFeatures (buildGraph demoTables).g) key.2.2 = some M ∧
            ∀ pr ∈ es, pr.2 < M.length) :=
  ⟨by decide, (claim_C7_amended demoTables (by decide)).2.2.1⟩

end KG
